import Mathlib

/-!
Shallow embedding of the table-driven Catmull-Clark subdivision kernels of
`FarCatmarkSubdivisionTables` (far/catmarkSubdivisionTables.h) and of the
table-slot construction of `OsdGLSLTransformFeedbackComputeContext`
(osd/glslTransformFeedbackComputeContext.cpp).

The topology tables are total functions from integer indices, mirroring the
raw array accesses of the C++ kernels.  The vertex buffer is a total function
from integer indices to vertex records.  Floating point weights are embedded
as rationals.  Each C++ loop is a structurally recursive Lean function whose
iteration count is the loop trip count of the source.
-/

/-- Modelled from the spec: the Vertex Record capability contract of §6
(reset to zero, weighted accumulation of a primary attribute, weighted
accumulation of a secondary varying attribute).  The concrete record type is
the template parameter `U` of the kernels, whose implementation lives outside
this repository. -/
@[ext]
structure Vertex where
  pos : ℚ
  var : ℚ
deriving DecidableEq

/-- Modelled from the spec: `clear()` resets both attributes to zero. -/
def Vertex.Clear (_v : Vertex) : Vertex := ⟨0, 0⟩

/-- Modelled from the spec: `AddWithWeight` accumulates `weight * source`
into the primary attribute. -/
def Vertex.AddWithWeight (d s : Vertex) (w : ℚ) : Vertex := ⟨d.pos + w * s.pos, d.var⟩

/-- Modelled from the spec: `AddVaryingWithWeight` accumulates
`weight * source` into the varying attribute. -/
def Vertex.AddVaryingWithWeight (d s : Vertex) (w : ℚ) : Vertex := ⟨d.pos, d.var + w * s.var⟩

/-- The seven flat topology tables owned by `FarCatmarkSubdivisionTables`
(inherited storage of `FarSubdivisionTables`), embedded as total index
functions. -/
structure FarCatmarkSubdivisionTables where
  F_ITa : ℤ → ℤ
  F_IT : ℤ → ℤ
  E_IT : ℤ → ℤ
  E_W : ℤ → ℚ
  V_ITa : ℤ → ℤ
  V_IT : ℤ → ℤ
  V_W : ℤ → ℚ

/-- Modelled from the spec: the `FarSubdivisionTables::Scheme` enumeration of
the base-class header, which is not part of the provided sources. -/
inductive Scheme where
  | BILINEAR
  | CATMARK
  | LOOP
deriving DecidableEq

/-- `GetNumTables` of catmarkSubdivisionTables.h line 51: returns 7. -/
def FarCatmarkSubdivisionTables.GetNumTables (_t : FarCatmarkSubdivisionTables) : ℤ := 7

/-- `GetScheme` of catmarkSubdivisionTables.h lines 54-56: returns CATMARK. -/
def FarCatmarkSubdivisionTables.GetScheme (_t : FarCatmarkSubdivisionTables) : Scheme :=
  Scheme.CATMARK

/-- The common loop shape of the four kernels: `count` iterations, the table
cursor `i` and the destination cursor `dst` each advancing by one per
iteration (`for (i = start+tableOffset; i < end+tableOffset; ++i, ++vdst)`). -/
def kernelLoop (step : (ℤ → Vertex) → ℤ → ℤ → (ℤ → Vertex)) :
    ℕ → ℤ → ℤ → (ℤ → Vertex) → (ℤ → Vertex)
  | 0, _, _, buf => buf
  | k + 1, i, dst, buf => kernelLoop step k (i + 1) (dst + 1) (step buf i dst)

/-- Inner loop of `computeFacePoints` (lines 108-111): for `j < n`, accumulate
source vertex `F_IT[h+j]` into the primary and varying attributes with the
given weight. -/
def faceAccumJ (t : FarCatmarkSubdivisionTables) (buf : ℤ → Vertex) (h : ℤ) (w : ℚ) :
    ℕ → Vertex → Vertex
  | 0, v => v
  | j + 1, v =>
    let s := buf (t.F_IT (h + (j : ℤ)))
    ((faceAccumJ t buf h w j v).AddWithWeight s w).AddVaryingWithWeight s w

/-- One iteration of `computeFacePoints` (lines 100-112): clear the
destination, read `(h, n)` from `F_ITa`, accumulate the `n` sources with
weight `1/n`. -/
def facePointStep (t : FarCatmarkSubdivisionTables) (buf : ℤ → Vertex) (i dst : ℤ) :
    ℤ → Vertex :=
  let h := t.F_ITa (2 * i)
  let n := t.F_ITa (2 * i + 1)
  let weight : ℚ := 1 / (n : ℚ)
  Function.update buf dst (faceAccumJ t buf h weight n.toNat ((buf dst).Clear))

/-- `computeFacePoints` of catmarkSubdivisionTables.h lines 95-113. -/
def FarCatmarkSubdivisionTables.computeFacePoints (t : FarCatmarkSubdivisionTables)
    (offset tableOffset start stop : ℤ) (vsrc : ℤ → Vertex) : ℤ → Vertex :=
  kernelLoop (facePointStep t) (stop - start).toNat (start + tableOffset) (offset + start) vsrc

/-- One iteration of `computeEdgePoints` (lines 124-149): clear, read the
four `E_IT` entries, accumulate the endpoints with `E_W[2i]`, the two
opposite-face vertices with `E_W[2i+1]` when `eidx2 ≠ -1`, and the varying
midpoint of the endpoints. -/
def edgePointStep (t : FarCatmarkSubdivisionTables) (buf : ℤ → Vertex) (i dst : ℤ) :
    ℤ → Vertex :=
  let eidx0 := t.E_IT (4 * i + 0)
  let eidx1 := t.E_IT (4 * i + 1)
  let eidx2 := t.E_IT (4 * i + 2)
  let eidx3 := t.E_IT (4 * i + 3)
  let vertWeight := t.E_W (i * 2 + 0)
  let v0 := (buf dst).Clear
  let v1 := (v0.AddWithWeight (buf eidx0) vertWeight).AddWithWeight (buf eidx1) vertWeight
  let v2 :=
    if eidx2 ≠ -1 then
      let faceWeight := t.E_W (i * 2 + 1)
      (v1.AddWithWeight (buf eidx2) faceWeight).AddWithWeight (buf eidx3) faceWeight
    else v1
  Function.update buf dst
    ((v2.AddVaryingWithWeight (buf eidx0) (1 / 2)).AddVaryingWithWeight (buf eidx1) (1 / 2))

/-- `computeEdgePoints` of catmarkSubdivisionTables.h lines 119-150. -/
def FarCatmarkSubdivisionTables.computeEdgePoints (t : FarCatmarkSubdivisionTables)
    (offset tableOffset start stop : ℤ) (vsrc : ℤ → Vertex) : ℤ → Vertex :=
  kernelLoop (edgePointStep t) (stop - start).toNat (start + tableOffset) (offset + start) vsrc

/-- Lines 172-178 of kernel A: the weight is `V_W[i]` on the second pass and
`1 - V_W[i]` on the first; it is re-inverted when strictly fractional and the
valence entry is positive. -/
def vertexAEffectiveWeight (t : FarCatmarkSubdivisionTables) (pass : Bool) (i : ℤ) : ℚ :=
  let weight : ℚ := if pass then t.V_W i else 1 - t.V_W i
  if 0 < weight ∧ weight < 1 ∧ 0 < t.V_ITa (5 * i + 1) then 1 - weight else weight

/-- One iteration of `computeVertexPointsA` (lines 162-192): clear only on
the first pass, then apply the corner rule when `eidx0 = -1` or (first pass
and valence `-1`), otherwise the crease rule with coefficients `3/4, 1/8,
1/8`; always add the parent to the varying attribute with weight 1. -/
def vertexAStep (t : FarCatmarkSubdivisionTables) (pass : Bool) (buf : ℤ → Vertex)
    (i dst : ℤ) : ℤ → Vertex :=
  let v0 := if pass then buf dst else (buf dst).Clear
  let n := t.V_ITa (5 * i + 1)
  let p := t.V_ITa (5 * i + 2)
  let eidx0 := t.V_ITa (5 * i + 3)
  let eidx1 := t.V_ITa (5 * i + 4)
  let weight := vertexAEffectiveWeight t pass i
  let v1 :=
    if eidx0 = -1 ∨ (pass = false ∧ n = -1) then
      v0.AddWithWeight (buf p) weight
    else
      ((v0.AddWithWeight (buf p) (weight * (3 / 4))).AddWithWeight (buf eidx0)
          (weight * (1 / 8))).AddWithWeight (buf eidx1) (weight * (1 / 8))
  Function.update buf dst (v1.AddVaryingWithWeight (buf p) 1)

/-- `computeVertexPointsA` of catmarkSubdivisionTables.h lines 157-193. -/
def FarCatmarkSubdivisionTables.computeVertexPointsA (t : FarCatmarkSubdivisionTables)
    (offset : ℤ) (pass : Bool) (tableOffset start stop : ℤ) (vsrc : ℤ → Vertex) :
    ℤ → Vertex :=
  kernelLoop (vertexAStep t pass) (stop - start).toNat (start + tableOffset) (offset + start) vsrc

/-- Inner loop of `computeVertexPointsB` (lines 215-218): for `j < n`,
accumulate the two stored neighbors `V_IT[h+2j]` and `V_IT[h+2j+1]`. -/
def vertexBAccumJ (t : FarCatmarkSubdivisionTables) (buf : ℤ → Vertex) (h : ℤ) (w : ℚ) :
    ℕ → Vertex → Vertex
  | 0, v => v
  | j + 1, v =>
    ((vertexBAccumJ t buf h w j v).AddWithWeight
        (buf (t.V_IT (h + (j : ℤ) * 2))) w).AddWithWeight
      (buf (t.V_IT (h + (j : ℤ) * 2 + 1))) w

/-- One iteration of `computeVertexPointsB` (lines 201-220): always clear,
read `(h, n, p)` from `V_ITa`, accumulate the parent with `s * (n-2)*n/n²`
and each stored neighbor with `s / n²`; add the parent to the varying
attribute with weight 1. -/
def vertexBStep (t : FarCatmarkSubdivisionTables) (buf : ℤ → Vertex) (i dst : ℤ) :
    ℤ → Vertex :=
  let h := t.V_ITa (5 * i + 0)
  let n := t.V_ITa (5 * i + 1)
  let p := t.V_ITa (5 * i + 2)
  let weight := t.V_W i
  let wp : ℚ := 1 / ((n : ℚ) * (n : ℚ))
  let wv : ℚ := ((n : ℚ) - 2) * (n : ℚ) * wp
  let v1 := ((buf dst).Clear).AddWithWeight (buf p) (weight * wv)
  let v2 := vertexBAccumJ t buf h (weight * wp) n.toNat v1
  Function.update buf dst (v2.AddVaryingWithWeight (buf p) 1)

/-- `computeVertexPointsB` of catmarkSubdivisionTables.h lines 196-221. -/
def FarCatmarkSubdivisionTables.computeVertexPointsB (t : FarCatmarkSubdivisionTables)
    (offset tableOffset start stop : ℤ) (vsrc : ℤ → Vertex) : ℤ → Vertex :=
  kernelLoop (vertexBStep t) (stop - start).toNat (start + tableOffset) (offset + start) vsrc

/-- Engine state pairing the immutable tables with the shared vertex buffer;
the kernels are const methods of the table object, so a kernel invocation
maps a state to a state with the same tables. -/
structure EngineState where
  tables : FarCatmarkSubdivisionTables
  buf : ℤ → Vertex

/-- State-passing form of `computeFacePoints`. -/
def computeFacePointsS (s : EngineState) (offset tableOffset start stop : ℤ) : EngineState :=
  ⟨s.tables, s.tables.computeFacePoints offset tableOffset start stop s.buf⟩

/-- State-passing form of `computeEdgePoints`. -/
def computeEdgePointsS (s : EngineState) (offset tableOffset start stop : ℤ) : EngineState :=
  ⟨s.tables, s.tables.computeEdgePoints offset tableOffset start stop s.buf⟩

/-- State-passing form of `computeVertexPointsA`. -/
def computeVertexPointsAS (s : EngineState) (offset : ℤ) (pass : Bool)
    (tableOffset start stop : ℤ) : EngineState :=
  ⟨s.tables, s.tables.computeVertexPointsA offset pass tableOffset start stop s.buf⟩

/-- State-passing form of `computeVertexPointsB`. -/
def computeVertexPointsBS (s : EngineState) (offset tableOffset start stop : ℤ) : EngineState :=
  ⟨s.tables, s.tables.computeVertexPointsB offset tableOffset start stop s.buf⟩

/-- Table slots of `OsdGLSLTransformFeedbackComputeContext::_tables`; a field
is `true` when the corresponding `OsdGLSLTransformFeedbackTable` is
constructed and `false` when the slot is left null.  The numeric values of
the `FarSubdivisionTables` slot enumerators live in the base-class header,
which is not part of the provided sources, so the slots are named. -/
structure OsdTfTableSlots where
  e_IT : Bool
  v_IT : Bool
  v_ITa : Bool
  e_W : Bool
  v_W : Bool
  f_IT : Bool
  f_ITa : Bool
deriving DecidableEq

/-- `_tables.resize(7, 0)` of glslTransformFeedbackComputeContext.cpp
line 135: the context always allocates seven table slots. -/
def osdTfNumTableSlots : ℕ := 7

/-- Constructor logic of `OsdGLSLTransformFeedbackComputeContext` (lines
129-151), as a function of `subdivisionTables->GetNumTables()`: the five
edge/vertex tables are always constructed, and the two face tables are
constructed exactly when more than 5 tables are reported. -/
def mkOsdGLSLTransformFeedbackComputeContext (numTables : ℤ) : OsdTfTableSlots :=
  { e_IT := true
    v_IT := true
    v_ITa := true
    e_W := true
    v_W := true
    f_IT := decide (numTables > 5)
    f_ITa := decide (numTables > 5) }

/-- Source indices read by one face-point iteration. -/
def faceSrcIndices (t : FarCatmarkSubdivisionTables) (i : ℤ) : List ℤ :=
  (List.range (t.F_ITa (2 * i + 1)).toNat).map
    (fun (j : ℕ) => t.F_IT (t.F_ITa (2 * i) + (j : ℤ)))

/-- Positions of the `E_IT` table loaded by one edge-point iteration
(lines 128-131): always the four entries, before any branch. -/
def edgeEITReadIndices (i : ℤ) : List ℤ := [4 * i + 0, 4 * i + 1, 4 * i + 2, 4 * i + 3]

/-- Source vertices fetched by one edge-point iteration: the two endpoints,
plus the two opposite-face vertices only when `eidx2 ≠ -1`. -/
def edgeSrcIndices (t : FarCatmarkSubdivisionTables) (i : ℤ) : List ℤ :=
  if t.E_IT (4 * i + 2) ≠ -1 then
    [t.E_IT (4 * i + 0), t.E_IT (4 * i + 1), t.E_IT (4 * i + 2), t.E_IT (4 * i + 3)]
  else
    [t.E_IT (4 * i + 0), t.E_IT (4 * i + 1)]

/-- Positions of the `V_IT` table read by one kernel-B iteration:
`h + 2j` and `h + 2j + 1` for `j < n`. -/
def vertexBVITReadIndices (t : FarCatmarkSubdivisionTables) (i : ℤ) : List ℤ :=
  (List.range (t.V_ITa (5 * i + 1)).toNat).flatMap
    (fun (j : ℕ) => [t.V_ITa (5 * i + 0) + (j : ℤ) * 2, t.V_ITa (5 * i + 0) + (j : ℤ) * 2 + 1])

/-- Source vertices fetched by one kernel-B iteration: the parent and the
`2n` stored neighbors. -/
def vertexBSrcIndices (t : FarCatmarkSubdivisionTables) (i : ℤ) : List ℤ :=
  t.V_ITa (5 * i + 2) :: (vertexBVITReadIndices t i).map t.V_IT

@[simp]
theorem Vertex.Clear_pos (v : Vertex) : v.Clear.pos = 0 := rfl

@[simp]
theorem Vertex.Clear_var (v : Vertex) : v.Clear.var = 0 := rfl

@[simp]
theorem Vertex.AddWithWeight_pos (d s : Vertex) (w : ℚ) :
    (d.AddWithWeight s w).pos = d.pos + w * s.pos := rfl

@[simp]
theorem Vertex.AddWithWeight_var (d s : Vertex) (w : ℚ) :
    (d.AddWithWeight s w).var = d.var := rfl

@[simp]
theorem Vertex.AddVaryingWithWeight_pos (d s : Vertex) (w : ℚ) :
    (d.AddVaryingWithWeight s w).pos = d.pos := rfl

@[simp]
theorem Vertex.AddVaryingWithWeight_var (d s : Vertex) (w : ℚ) :
    (d.AddVaryingWithWeight s w).var = d.var + w * s.var := rfl

/-- A loop body writes only its destination index. -/
def StepFrame (step : (ℤ → Vertex) → ℤ → ℤ → (ℤ → Vertex)) : Prop :=
  ∀ (buf : ℤ → Vertex) (i dst j : ℤ), j ≠ dst → step buf i dst j = buf j

theorem facePointStep_frame (t : FarCatmarkSubdivisionTables) :
    StepFrame (facePointStep t) := by
  intro buf i dst j hj
  simp only [facePointStep]
  exact Function.update_noteq hj _ _

theorem edgePointStep_frame (t : FarCatmarkSubdivisionTables) :
    StepFrame (edgePointStep t) := by
  intro buf i dst j hj
  simp only [edgePointStep]
  exact Function.update_noteq hj _ _

theorem vertexAStep_frame (t : FarCatmarkSubdivisionTables) (pass : Bool) :
    StepFrame (vertexAStep t pass) := by
  intro buf i dst j hj
  simp only [vertexAStep]
  exact Function.update_noteq hj _ _

theorem vertexBStep_frame (t : FarCatmarkSubdivisionTables) :
    StepFrame (vertexBStep t) := by
  intro buf i dst j hj
  simp only [vertexBStep]
  exact Function.update_noteq hj _ _

/-- Indices outside the destination window `[dst, dst + k)` are untouched by
the loop. -/
theorem kernelLoop_frame (step : (ℤ → Vertex) → ℤ → ℤ → (ℤ → Vertex))
    (hs : StepFrame step) :
    ∀ (k : ℕ) (i dst : ℤ) (buf : ℤ → Vertex) (j : ℤ),
      j < dst ∨ dst + (k : ℤ) ≤ j → kernelLoop step k i dst buf j = buf j := by
  intro k
  induction k with
  | zero => intro i dst buf j _; rfl
  | succ k ih =>
    intro i dst buf j hj
    have h1 : kernelLoop step (k + 1) i dst buf j =
        kernelLoop step k (i + 1) (dst + 1) (step buf i dst) j := rfl
    have h2 : j < dst + 1 ∨ (dst + 1) + (k : ℤ) ≤ j := by
      rcases hj with hj | hj
      · left; omega
      · right; push_cast at hj ⊢; omega
    have h3 : j ≠ dst := by
      rcases hj with hj | hj
      · omega
      · push_cast at hj; omega
    rw [h1, ih (i + 1) (dst + 1) (step buf i dst) j h2, hs buf i dst j h3]

/-- The value at destination index `dst + m` after the whole loop is the
value written by iteration `m` alone, acting on the buffer produced by the
first `m` iterations: each destination index is written by exactly one
iteration. -/
theorem kernelLoop_get (step : (ℤ → Vertex) → ℤ → ℤ → (ℤ → Vertex))
    (hs : StepFrame step) :
    ∀ (m k : ℕ) (i dst : ℤ) (buf : ℤ → Vertex), m < k →
      kernelLoop step k i dst buf (dst + (m : ℤ)) =
        step (kernelLoop step m i dst buf) (i + (m : ℤ)) (dst + (m : ℤ)) (dst + (m : ℤ)) := by
  intro m
  induction m with
  | zero =>
    intro k i dst buf hk
    match k, hk with
    | k + 1, _ =>
      simp only [Nat.cast_zero, add_zero]
      show kernelLoop step k (i + 1) (dst + 1) (step buf i dst) dst = step buf i dst dst
      exact kernelLoop_frame step hs k (i + 1) (dst + 1) (step buf i dst) dst
        (Or.inl (by omega))
  | succ m ih =>
    intro k i dst buf hk
    match k, hk with
    | k + 1, hk =>
      have hmk : m < k := by omega
      have h1 : kernelLoop step (k + 1) i dst buf (dst + ((m + 1 : ℕ) : ℤ)) =
          kernelLoop step k (i + 1) (dst + 1) (step buf i dst) ((dst + 1) + (m : ℤ)) := by
        have : dst + ((m + 1 : ℕ) : ℤ) = (dst + 1) + (m : ℤ) := by push_cast; ring
        rw [this]; rfl
      rw [h1, ih k (i + 1) (dst + 1) (step buf i dst) hmk]
      have e1 : (i + 1) + (m : ℤ) = i + ((m + 1 : ℕ) : ℤ) := by push_cast; ring
      have e2 : (dst + 1) + (m : ℤ) = dst + ((m + 1 : ℕ) : ℤ) := by push_cast; ring
      rw [e1, e2]
      rfl

theorem faceAccumJ_pos (t : FarCatmarkSubdivisionTables) (buf : ℤ → Vertex) (h : ℤ) (w : ℚ) :
    ∀ (m : ℕ) (v : Vertex),
      (faceAccumJ t buf h w m v).pos =
        v.pos + w * ((List.range m).map (fun (j : ℕ) => (buf (t.F_IT (h + (j : ℤ)))).pos)).sum := by
  intro m
  induction m with
  | zero => intro v; simp [faceAccumJ]
  | succ m ih =>
    intro v
    simp only [faceAccumJ, Vertex.AddVaryingWithWeight_pos, Vertex.AddWithWeight_pos, ih,
      List.range_succ, List.map_append, List.sum_append, List.map_cons, List.map_nil,
      List.sum_cons, List.sum_nil]
    ring

theorem faceAccumJ_var (t : FarCatmarkSubdivisionTables) (buf : ℤ → Vertex) (h : ℤ) (w : ℚ) :
    ∀ (m : ℕ) (v : Vertex),
      (faceAccumJ t buf h w m v).var =
        v.var + w * ((List.range m).map (fun (j : ℕ) => (buf (t.F_IT (h + (j : ℤ)))).var)).sum := by
  intro m
  induction m with
  | zero => intro v; simp [faceAccumJ]
  | succ m ih =>
    intro v
    simp only [faceAccumJ, Vertex.AddVaryingWithWeight_var, Vertex.AddWithWeight_var, ih,
      List.range_succ, List.map_append, List.sum_append, List.map_cons, List.map_nil,
      List.sum_cons, List.sum_nil]
    ring

theorem faceAccumJ_congr (t : FarCatmarkSubdivisionTables) (buf buf' : ℤ → Vertex)
    (h : ℤ) (w : ℚ) :
    ∀ (m : ℕ) (v : Vertex),
      (∀ j : ℕ, j < m → buf (t.F_IT (h + (j : ℤ))) = buf' (t.F_IT (h + (j : ℤ)))) →
      faceAccumJ t buf h w m v = faceAccumJ t buf' h w m v := by
  intro m
  induction m with
  | zero => intro v _; rfl
  | succ m ih =>
    intro v hag
    simp only [faceAccumJ]
    rw [ih v (fun j hj => hag j (by omega)), hag m (by omega)]

theorem facePointStep_self (t : FarCatmarkSubdivisionTables) (buf : ℤ → Vertex) (i dst : ℤ) :
    facePointStep t buf i dst dst =
      faceAccumJ t buf (t.F_ITa (2 * i)) (1 / (t.F_ITa (2 * i + 1) : ℚ))
        (t.F_ITa (2 * i + 1)).toNat ((buf dst).Clear) := by
  simp [facePointStep]

theorem edgePointStep_self (t : FarCatmarkSubdivisionTables) (buf : ℤ → Vertex) (i dst : ℤ) :
    edgePointStep t buf i dst dst =
      ⟨t.E_W (i * 2) * (buf (t.E_IT (4 * i))).pos +
          t.E_W (i * 2) * (buf (t.E_IT (4 * i + 1))).pos +
          (if t.E_IT (4 * i + 2) ≠ -1 then
            t.E_W (i * 2 + 1) * (buf (t.E_IT (4 * i + 2))).pos +
              t.E_W (i * 2 + 1) * (buf (t.E_IT (4 * i + 3))).pos
          else 0),
        (1 / 2) * (buf (t.E_IT (4 * i))).var + (1 / 2) * (buf (t.E_IT (4 * i + 1))).var⟩ := by
  simp only [edgePointStep, Function.update_same, Vertex.AddWithWeight,
    Vertex.AddVaryingWithWeight, Vertex.Clear]
  split_ifs with hc <;> simp only [Vertex.mk.injEq] <;> exact ⟨by ring_nf, by ring_nf⟩

theorem vertexAStep_self (t : FarCatmarkSubdivisionTables) (pass : Bool) (buf : ℤ → Vertex)
    (i dst : ℤ) :
    vertexAStep t pass buf i dst dst =
      ⟨(if pass then (buf dst).pos else 0) +
          (if t.V_ITa (5 * i + 3) = -1 ∨ (pass = false ∧ t.V_ITa (5 * i + 1) = -1) then
            vertexAEffectiveWeight t pass i * (buf (t.V_ITa (5 * i + 2))).pos
          else
            vertexAEffectiveWeight t pass i * (3 / 4) * (buf (t.V_ITa (5 * i + 2))).pos +
              vertexAEffectiveWeight t pass i * (1 / 8) * (buf (t.V_ITa (5 * i + 3))).pos +
              vertexAEffectiveWeight t pass i * (1 / 8) * (buf (t.V_ITa (5 * i + 4))).pos),
        (if pass then (buf dst).var else 0) + (buf (t.V_ITa (5 * i + 2))).var⟩ := by
  by_cases hc : t.V_ITa (5 * i + 3) = -1 ∨ (pass = false ∧ t.V_ITa (5 * i + 1) = -1)
  · simp only [vertexAStep, Function.update_same, if_pos hc, Vertex.AddWithWeight,
      Vertex.AddVaryingWithWeight, Vertex.Clear]
    cases pass <;> simp only [Bool.false_eq_true, if_true, if_false, Vertex.mk.injEq] <;>
      exact ⟨by ring_nf, by ring_nf⟩
  · simp only [vertexAStep, Function.update_same, if_neg hc, Vertex.AddWithWeight,
      Vertex.AddVaryingWithWeight, Vertex.Clear]
    cases pass <;> simp only [Bool.false_eq_true, if_true, if_false, Vertex.mk.injEq] <;>
      exact ⟨by ring_nf, by ring_nf⟩

theorem vertexBAccumJ_pos (t : FarCatmarkSubdivisionTables) (buf : ℤ → Vertex)
    (h : ℤ) (w : ℚ) :
    ∀ (m : ℕ) (v : Vertex),
      (vertexBAccumJ t buf h w m v).pos =
        v.pos + w * ((List.range m).map (fun (j : ℕ) =>
          (buf (t.V_IT (h + (j : ℤ) * 2))).pos +
            (buf (t.V_IT (h + (j : ℤ) * 2 + 1))).pos)).sum := by
  intro m
  induction m with
  | zero => intro v; simp [vertexBAccumJ]
  | succ m ih =>
    intro v
    simp only [vertexBAccumJ, Vertex.AddWithWeight_pos, ih, List.range_succ,
      List.map_append, List.sum_append, List.map_cons, List.map_nil, List.sum_cons,
      List.sum_nil]
    ring

theorem vertexBAccumJ_var (t : FarCatmarkSubdivisionTables) (buf : ℤ → Vertex)
    (h : ℤ) (w : ℚ) :
    ∀ (m : ℕ) (v : Vertex), (vertexBAccumJ t buf h w m v).var = v.var := by
  intro m
  induction m with
  | zero => intro v; rfl
  | succ m ih => intro v; simp only [vertexBAccumJ, Vertex.AddWithWeight_var, ih]

theorem vertexBAccumJ_congr (t : FarCatmarkSubdivisionTables) (buf buf' : ℤ → Vertex)
    (h : ℤ) (w : ℚ) :
    ∀ (m : ℕ) (v : Vertex),
      (∀ j : ℕ, j < m →
        buf (t.V_IT (h + (j : ℤ) * 2)) = buf' (t.V_IT (h + (j : ℤ) * 2)) ∧
          buf (t.V_IT (h + (j : ℤ) * 2 + 1)) = buf' (t.V_IT (h + (j : ℤ) * 2 + 1))) →
      vertexBAccumJ t buf h w m v = vertexBAccumJ t buf' h w m v := by
  intro m
  induction m with
  | zero => intro v _; rfl
  | succ m ih =>
    intro v hag
    simp only [vertexBAccumJ]
    rw [ih v (fun j hj => hag j (by omega)), (hag m (by omega)).1, (hag m (by omega)).2]

theorem vertexBStep_self (t : FarCatmarkSubdivisionTables) (buf : ℤ → Vertex) (i dst : ℤ) :
    vertexBStep t buf i dst dst =
      ⟨t.V_W i * (((t.V_ITa (5 * i + 1) : ℚ) - 2) * (t.V_ITa (5 * i + 1) : ℚ) *
            (1 / ((t.V_ITa (5 * i + 1) : ℚ) * (t.V_ITa (5 * i + 1) : ℚ)))) *
            (buf (t.V_ITa (5 * i + 2))).pos +
          t.V_W i * (1 / ((t.V_ITa (5 * i + 1) : ℚ) * (t.V_ITa (5 * i + 1) : ℚ))) *
            ((List.range (t.V_ITa (5 * i + 1)).toNat).map (fun (j : ℕ) =>
              (buf (t.V_IT (t.V_ITa (5 * i + 0) + (j : ℤ) * 2))).pos +
                (buf (t.V_IT (t.V_ITa (5 * i + 0) + (j : ℤ) * 2 + 1))).pos)).sum,
        (buf (t.V_ITa (5 * i + 2))).var⟩ := by
  simp only [vertexBStep, Function.update_same]
  have hpos := vertexBAccumJ_pos t buf (t.V_ITa (5 * i + 0))
    (t.V_W i * (1 / ((t.V_ITa (5 * i + 1) : ℚ) * (t.V_ITa (5 * i + 1) : ℚ))))
    (t.V_ITa (5 * i + 1)).toNat
    ((((buf dst).Clear).AddWithWeight (buf (t.V_ITa (5 * i + 2)))
      (t.V_W i * (((t.V_ITa (5 * i + 1) : ℚ) - 2) * (t.V_ITa (5 * i + 1) : ℚ) *
        (1 / ((t.V_ITa (5 * i + 1) : ℚ) * (t.V_ITa (5 * i + 1) : ℚ)))))))
  have hvar := vertexBAccumJ_var t buf (t.V_ITa (5 * i + 0))
    (t.V_W i * (1 / ((t.V_ITa (5 * i + 1) : ℚ) * (t.V_ITa (5 * i + 1) : ℚ))))
    (t.V_ITa (5 * i + 1)).toNat
    ((((buf dst).Clear).AddWithWeight (buf (t.V_ITa (5 * i + 2)))
      (t.V_W i * (((t.V_ITa (5 * i + 1) : ℚ) - 2) * (t.V_ITa (5 * i + 1) : ℚ) *
        (1 / ((t.V_ITa (5 * i + 1) : ℚ) * (t.V_ITa (5 * i + 1) : ℚ)))))))
  apply Vertex.ext
  · simp only [Vertex.AddVaryingWithWeight_pos, hpos, Vertex.AddWithWeight_pos,
      Vertex.Clear_pos]
    ring
  · simp only [Vertex.AddVaryingWithWeight_var, hvar, Vertex.AddWithWeight_var,
      Vertex.Clear_var]
    ring

theorem listRange_map_const_sum (c : ℚ) :
    ∀ m : ℕ, ((List.range m).map (fun (_ : ℕ) => c)).sum = (m : ℚ) * c := by
  intro m
  induction m with
  | zero => simp
  | succ m ih =>
    simp only [List.range_succ, List.map_append, List.sum_append, List.map_cons,
      List.map_nil, List.sum_cons, List.sum_nil, ih]
    push_cast
    ring

theorem kernelLoop_one (step : (ℤ → Vertex) → ℤ → ℤ → (ℤ → Vertex)) (i dst : ℤ)
    (buf : ℤ → Vertex) : kernelLoop step 1 i dst buf = step buf i dst := rfl

/-- C6: for every face-point in the range processed by `computeFacePoints`
with a well-formed table entry (valence at least 3, sources strictly below
the destination window), the destination record is cleared and each of the
`n` listed source vertices is added to both the primary and varying
attribute with weight `1/n`; the contribution weights sum to 1, and a
valence-4 face-point yields the average of its four corners (see the
witness). -/
theorem computeFacePoints_spec (t : FarCatmarkSubdivisionTables)
    (offset tableOffset start stop : ℤ) (vsrc : ℤ → Vertex) (k : ℕ)
    (hk : k < (stop - start).toNat)
    (hn : 3 ≤ t.F_ITa (2 * (start + tableOffset + (k : ℤ)) + 1))
    (hsrc : ∀ j ∈ List.range (t.F_ITa (2 * (start + tableOffset + (k : ℤ)) + 1)).toNat,
      t.F_IT (t.F_ITa (2 * (start + tableOffset + (k : ℤ))) + (j : ℤ)) < offset + start) :
    t.computeFacePoints offset tableOffset start stop vsrc (offset + start + (k : ℤ)) =
      ⟨(1 / (t.F_ITa (2 * (start + tableOffset + (k : ℤ)) + 1) : ℚ)) *
          ((faceSrcIndices t (start + tableOffset + (k : ℤ))).map
            (fun q => (vsrc q).pos)).sum,
        (1 / (t.F_ITa (2 * (start + tableOffset + (k : ℤ)) + 1) : ℚ)) *
          ((faceSrcIndices t (start + tableOffset + (k : ℤ))).map
            (fun q => (vsrc q).var)).sum⟩ ∧
      ((List.range (t.F_ITa (2 * (start + tableOffset + (k : ℤ)) + 1)).toNat).map
        (fun (_ : ℕ) =>
          1 / (t.F_ITa (2 * (start + tableOffset + (k : ℤ)) + 1) : ℚ))).sum = 1 := by
  have hnz : (t.F_ITa (2 * (start + tableOffset + (k : ℤ)) + 1) : ℚ) ≠ 0 := by
    exact_mod_cast (by omega : t.F_ITa (2 * (start + tableOffset + (k : ℤ)) + 1) ≠ 0)
  constructor
  · simp only [FarCatmarkSubdivisionTables.computeFacePoints]
    rw [kernelLoop_get (facePointStep t) (facePointStep_frame t) k (stop - start).toNat
      (start + tableOffset) (offset + start) vsrc hk]
    rw [facePointStep_self]
    rw [faceAccumJ_congr t
      (kernelLoop (facePointStep t) k (start + tableOffset) (offset + start) vsrc) vsrc _ _ _ _
      (fun j hj =>
        kernelLoop_frame (facePointStep t) (facePointStep_frame t) k (start + tableOffset)
          (offset + start) vsrc _
          (Or.inl (hsrc j (List.mem_range.mpr hj))))]
    apply Vertex.ext
    · simp only [faceAccumJ_pos, Vertex.Clear_pos, zero_add, faceSrcIndices, List.map_map,
        Function.comp_def]
    · simp only [faceAccumJ_var, Vertex.Clear_var, zero_add, faceSrcIndices, List.map_map,
        Function.comp_def]
  · rw [listRange_map_const_sum]
    have hcast : ((t.F_ITa (2 * (start + tableOffset + (k : ℤ)) + 1)).toNat : ℚ) =
        (t.F_ITa (2 * (start + tableOffset + (k : ℤ)) + 1) : ℚ) := by
      have := Int.toNat_of_nonneg
        (by omega : 0 ≤ t.F_ITa (2 * (start + tableOffset + (k : ℤ)) + 1))
      exact_mod_cast congrArg (fun z : ℤ => (z : ℚ)) this
    rw [hcast]
    field_simp

theorem computeEdgePoints_at (t : FarCatmarkSubdivisionTables)
    (offset tableOffset start stop : ℤ) (vsrc : ℤ → Vertex) (k : ℕ)
    (hk : k < (stop - start).toNat)
    (he0 : t.E_IT (4 * (start + tableOffset + (k : ℤ))) < offset + start)
    (he1 : t.E_IT (4 * (start + tableOffset + (k : ℤ)) + 1) < offset + start)
    (he23 : t.E_IT (4 * (start + tableOffset + (k : ℤ)) + 2) ≠ -1 →
      t.E_IT (4 * (start + tableOffset + (k : ℤ)) + 2) < offset + start ∧
        t.E_IT (4 * (start + tableOffset + (k : ℤ)) + 3) < offset + start) :
    t.computeEdgePoints offset tableOffset start stop vsrc (offset + start + (k : ℤ)) =
      ⟨t.E_W ((start + tableOffset + (k : ℤ)) * 2) *
            (vsrc (t.E_IT (4 * (start + tableOffset + (k : ℤ))))).pos +
          t.E_W ((start + tableOffset + (k : ℤ)) * 2) *
            (vsrc (t.E_IT (4 * (start + tableOffset + (k : ℤ)) + 1))).pos +
          (if t.E_IT (4 * (start + tableOffset + (k : ℤ)) + 2) ≠ -1 then
            t.E_W ((start + tableOffset + (k : ℤ)) * 2 + 1) *
                (vsrc (t.E_IT (4 * (start + tableOffset + (k : ℤ)) + 2))).pos +
              t.E_W ((start + tableOffset + (k : ℤ)) * 2 + 1) *
                (vsrc (t.E_IT (4 * (start + tableOffset + (k : ℤ)) + 3))).pos
          else 0),
        (1 / 2) * (vsrc (t.E_IT (4 * (start + tableOffset + (k : ℤ))))).var +
          (1 / 2) * (vsrc (t.E_IT (4 * (start + tableOffset + (k : ℤ)) + 1))).var⟩ := by
  simp only [FarCatmarkSubdivisionTables.computeEdgePoints]
  rw [kernelLoop_get (edgePointStep t) (edgePointStep_frame t) k (stop - start).toNat
    (start + tableOffset) (offset + start) vsrc hk]
  rw [edgePointStep_self]
  rw [kernelLoop_frame (edgePointStep t) (edgePointStep_frame t) k (start + tableOffset)
    (offset + start) vsrc _ (Or.inl he0)]
  rw [kernelLoop_frame (edgePointStep t) (edgePointStep_frame t) k (start + tableOffset)
    (offset + start) vsrc _ (Or.inl he1)]
  by_cases hcond : t.E_IT (4 * (start + tableOffset + (k : ℤ)) + 2) ≠ -1
  · obtain ⟨hc2, hc3⟩ := he23 hcond
    rw [if_pos hcond, if_pos hcond,
      kernelLoop_frame (edgePointStep t) (edgePointStep_frame t) k (start + tableOffset)
        (offset + start) vsrc _ (Or.inl hc2),
      kernelLoop_frame (edgePointStep t) (edgePointStep_frame t) k (start + tableOffset)
        (offset + start) vsrc _ (Or.inl hc3)]
  · rw [if_neg hcond, if_neg hcond]

theorem computeVertexPointsA_at (t : FarCatmarkSubdivisionTables) (offset : ℤ) (pass : Bool)
    (tableOffset start stop : ℤ) (vsrc : ℤ → Vertex) (k : ℕ)
    (hk : k < (stop - start).toNat)
    (hp : t.V_ITa (5 * (start + tableOffset + (k : ℤ)) + 2) < offset + start)
    (hcr : ¬(t.V_ITa (5 * (start + tableOffset + (k : ℤ)) + 3) = -1 ∨
        (pass = false ∧ t.V_ITa (5 * (start + tableOffset + (k : ℤ)) + 1) = -1)) →
      t.V_ITa (5 * (start + tableOffset + (k : ℤ)) + 3) < offset + start ∧
        t.V_ITa (5 * (start + tableOffset + (k : ℤ)) + 4) < offset + start) :
    t.computeVertexPointsA offset pass tableOffset start stop vsrc
        (offset + start + (k : ℤ)) =
      ⟨(if pass then (vsrc (offset + start + (k : ℤ))).pos else 0) +
          (if t.V_ITa (5 * (start + tableOffset + (k : ℤ)) + 3) = -1 ∨
              (pass = false ∧ t.V_ITa (5 * (start + tableOffset + (k : ℤ)) + 1) = -1) then
            vertexAEffectiveWeight t pass (start + tableOffset + (k : ℤ)) *
              (vsrc (t.V_ITa (5 * (start + tableOffset + (k : ℤ)) + 2))).pos
          else
            vertexAEffectiveWeight t pass (start + tableOffset + (k : ℤ)) * (3 / 4) *
                (vsrc (t.V_ITa (5 * (start + tableOffset + (k : ℤ)) + 2))).pos +
              vertexAEffectiveWeight t pass (start + tableOffset + (k : ℤ)) * (1 / 8) *
                (vsrc (t.V_ITa (5 * (start + tableOffset + (k : ℤ)) + 3))).pos +
              vertexAEffectiveWeight t pass (start + tableOffset + (k : ℤ)) * (1 / 8) *
                (vsrc (t.V_ITa (5 * (start + tableOffset + (k : ℤ)) + 4))).pos),
        (if pass then (vsrc (offset + start + (k : ℤ))).var else 0) +
          (vsrc (t.V_ITa (5 * (start + tableOffset + (k : ℤ)) + 2))).var⟩ := by
  simp only [FarCatmarkSubdivisionTables.computeVertexPointsA]
  rw [kernelLoop_get (vertexAStep t pass) (vertexAStep_frame t pass) k (stop - start).toNat
    (start + tableOffset) (offset + start) vsrc hk]
  rw [vertexAStep_self]
  rw [kernelLoop_frame (vertexAStep t pass) (vertexAStep_frame t pass) k (start + tableOffset)
    (offset + start) vsrc (offset + start + (k : ℤ)) (Or.inr (by omega))]
  rw [kernelLoop_frame (vertexAStep t pass) (vertexAStep_frame t pass) k (start + tableOffset)
    (offset + start) vsrc _ (Or.inl hp)]
  by_cases hcond : t.V_ITa (5 * (start + tableOffset + (k : ℤ)) + 3) = -1 ∨
      (pass = false ∧ t.V_ITa (5 * (start + tableOffset + (k : ℤ)) + 1) = -1)
  · rw [if_pos hcond, if_pos hcond]
  · obtain ⟨hc0, hc1⟩ := hcr hcond
    rw [if_neg hcond, if_neg hcond,
      kernelLoop_frame (vertexAStep t pass) (vertexAStep_frame t pass) k (start + tableOffset)
        (offset + start) vsrc _ (Or.inl hc0),
      kernelLoop_frame (vertexAStep t pass) (vertexAStep_frame t pass) k (start + tableOffset)
        (offset + start) vsrc _ (Or.inl hc1)]

theorem computeVertexPointsB_at (t : FarCatmarkSubdivisionTables)
    (offset tableOffset start stop : ℤ) (vsrc : ℤ → Vertex) (k : ℕ)
    (hk : k < (stop - start).toNat)
    (hp : t.V_ITa (5 * (start + tableOffset + (k : ℤ)) + 2) < offset + start)
    (hnb : ∀ j ∈ List.range (t.V_ITa (5 * (start + tableOffset + (k : ℤ)) + 1)).toNat,
      t.V_IT (t.V_ITa (5 * (start + tableOffset + (k : ℤ)) + 0) + (j : ℤ) * 2) <
          offset + start ∧
        t.V_IT (t.V_ITa (5 * (start + tableOffset + (k : ℤ)) + 0) + (j : ℤ) * 2 + 1) <
          offset + start) :
    t.computeVertexPointsB offset tableOffset start stop vsrc (offset + start + (k : ℤ)) =
      ⟨t.V_W (start + tableOffset + (k : ℤ)) *
            (((t.V_ITa (5 * (start + tableOffset + (k : ℤ)) + 1) : ℚ) - 2) *
              (t.V_ITa (5 * (start + tableOffset + (k : ℤ)) + 1) : ℚ) *
              (1 / ((t.V_ITa (5 * (start + tableOffset + (k : ℤ)) + 1) : ℚ) *
                (t.V_ITa (5 * (start + tableOffset + (k : ℤ)) + 1) : ℚ)))) *
            (vsrc (t.V_ITa (5 * (start + tableOffset + (k : ℤ)) + 2))).pos +
          t.V_W (start + tableOffset + (k : ℤ)) *
            (1 / ((t.V_ITa (5 * (start + tableOffset + (k : ℤ)) + 1) : ℚ) *
              (t.V_ITa (5 * (start + tableOffset + (k : ℤ)) + 1) : ℚ))) *
            ((List.range (t.V_ITa (5 * (start + tableOffset + (k : ℤ)) + 1)).toNat).map
              (fun (j : ℕ) =>
                (vsrc (t.V_IT (t.V_ITa (5 * (start + tableOffset + (k : ℤ)) + 0) +
                  (j : ℤ) * 2))).pos +
                  (vsrc (t.V_IT (t.V_ITa (5 * (start + tableOffset + (k : ℤ)) + 0) +
                    (j : ℤ) * 2 + 1))).pos)).sum,
        (vsrc (t.V_ITa (5 * (start + tableOffset + (k : ℤ)) + 2))).var⟩ := by
  simp only [FarCatmarkSubdivisionTables.computeVertexPointsB]
  rw [kernelLoop_get (vertexBStep t) (vertexBStep_frame t) k (stop - start).toNat
    (start + tableOffset) (offset + start) vsrc hk]
  rw [vertexBStep_self]
  rw [kernelLoop_frame (vertexBStep t) (vertexBStep_frame t) k (start + tableOffset)
    (offset + start) vsrc _ (Or.inl hp)]
  have hmap : (List.range (t.V_ITa (5 * (start + tableOffset + (k : ℤ)) + 1)).toNat).map
      (fun (j : ℕ) =>
        (kernelLoop (vertexBStep t) k (start + tableOffset) (offset + start) vsrc
          (t.V_IT (t.V_ITa (5 * (start + tableOffset + (k : ℤ)) + 0) + (j : ℤ) * 2))).pos +
          (kernelLoop (vertexBStep t) k (start + tableOffset) (offset + start) vsrc
            (t.V_IT (t.V_ITa (5 * (start + tableOffset + (k : ℤ)) + 0) +
              (j : ℤ) * 2 + 1))).pos) =
      (List.range (t.V_ITa (5 * (start + tableOffset + (k : ℤ)) + 1)).toNat).map
        (fun (j : ℕ) =>
          (vsrc (t.V_IT (t.V_ITa (5 * (start + tableOffset + (k : ℤ)) + 0) +
            (j : ℤ) * 2))).pos +
            (vsrc (t.V_IT (t.V_ITa (5 * (start + tableOffset + (k : ℤ)) + 0) +
              (j : ℤ) * 2 + 1))).pos) := by
    apply List.map_congr_left
    intro a ha
    rw [kernelLoop_frame (vertexBStep t) (vertexBStep_frame t) k (start + tableOffset)
      (offset + start) vsrc _ (Or.inl (hnb a ha).1),
      kernelLoop_frame (vertexBStep t) (vertexBStep_frame t) k (start + tableOffset)
        (offset + start) vsrc _ (Or.inl (hnb a ha).2)]
  rw [hmap]

/-- Concrete tables for the two-pass varying counterexample: one vertex-point
whose parent is source vertex 0, with the corner rule (`eidx0 = -1`) and
sharpness weight 0. -/
def tC2 : FarCatmarkSubdivisionTables where
  F_ITa := fun _ => 0
  F_IT := fun _ => 0
  E_IT := fun _ => 0
  E_W := fun _ => 0
  V_ITa := fun q => if q = 1 then 4 else if q = 2 then 0 else if q = 3 then -1
    else if q = 4 then -1 else 0
  V_IT := fun _ => 0
  V_W := fun _ => 0

/-- Concrete source buffer for the counterexample: the parent vertex 0 has
varying attribute 1. -/
def vsrcC2 : ℤ → Vertex := fun q => if q = 0 then ⟨5, 1⟩ else ⟨0, 0⟩

/-- C2 counterexample: running `computeVertexPointsA` for both passes over
the same destination (first pass clears, second accumulates) leaves the
varying attribute equal to twice the parent's varying attribute, not equal
to it: the second pass adds `1.0 * parent` again without clearing. -/
theorem varying_two_pass_counterexample :
    ((tC2.computeVertexPointsA 1 true 0 0 1
        (tC2.computeVertexPointsA 1 false 0 0 1 vsrcC2)) 1).var = 2 ∧
      (vsrcC2 (tC2.V_ITa (5 * 0 + 2))).var = 1 ∧
      ((tC2.computeVertexPointsA 1 true 0 0 1
          (tC2.computeVertexPointsA 1 false 0 0 1 vsrcC2)) 1).var ≠
        (vsrcC2 (tC2.V_ITa (5 * 0 + 2))).var := by
  have h1 : tC2.computeVertexPointsA 1 false 0 0 1 vsrcC2 =
      vertexAStep tC2 false vsrcC2 0 1 := by
    show kernelLoop (vertexAStep tC2 false) ((1 : ℤ) - 0).toNat (0 + 0) (1 + 0) vsrcC2 = _
    norm_num [kernelLoop_one]
  have h2 : tC2.computeVertexPointsA 1 true 0 0 1 (vertexAStep tC2 false vsrcC2 0 1) =
      vertexAStep tC2 true (vertexAStep tC2 false vsrcC2 0 1) 0 1 := by
    show kernelLoop (vertexAStep tC2 true) ((1 : ℤ) - 0).toNat (0 + 0) (1 + 0) _ = _
    norm_num [kernelLoop_one]
  rw [h1, h2]
  norm_num [vertexAStep, vertexAEffectiveWeight, Function.update, tC2, vsrcC2,
    Vertex.AddWithWeight, Vertex.AddVaryingWithWeight, Vertex.Clear]

@[simp]
theorem Vertex.pos_mk (a b : ℚ) : (Vertex.mk a b).pos = a := rfl

@[simp]
theorem Vertex.var_mk (a b : ℚ) : (Vertex.mk a b).var = b := rfl

/-- C2 (amended): the varying attribute of an edge-point always equals the
unweighted average of its two endpoints, regardless of the sharpness weights
and of the boundary flag; the varying attribute of a vertex-point equals the
parent exactly after `computeVertexPointsB` or after the clearing first pass
of `computeVertexPointsA`, while the non-clearing second pass adds a further
`1.0 * parent` on top of the existing destination content (so a two-pass
sequence yields twice the parent, as the counterexample shows). -/
theorem varying_attribute_behavior (t : FarCatmarkSubdivisionTables)
    (offset tableOffset start stop : ℤ) (vsrc : ℤ → Vertex) (k : ℕ)
    (hk : k < (stop - start).toNat)
    (he0 : t.E_IT (4 * (start + tableOffset + (k : ℤ))) < offset + start)
    (he1 : t.E_IT (4 * (start + tableOffset + (k : ℤ)) + 1) < offset + start)
    (hp : t.V_ITa (5 * (start + tableOffset + (k : ℤ)) + 2) < offset + start) :
    (t.computeEdgePoints offset tableOffset start stop vsrc
          (offset + start + (k : ℤ))).var =
        (1 / 2) * (vsrc (t.E_IT (4 * (start + tableOffset + (k : ℤ))))).var +
          (1 / 2) * (vsrc (t.E_IT (4 * (start + tableOffset + (k : ℤ)) + 1))).var ∧
      (t.computeVertexPointsB offset tableOffset start stop vsrc
          (offset + start + (k : ℤ))).var =
        (vsrc (t.V_ITa (5 * (start + tableOffset + (k : ℤ)) + 2))).var ∧
      (t.computeVertexPointsA offset false tableOffset start stop vsrc
          (offset + start + (k : ℤ))).var =
        (vsrc (t.V_ITa (5 * (start + tableOffset + (k : ℤ)) + 2))).var ∧
      (t.computeVertexPointsA offset true tableOffset start stop vsrc
          (offset + start + (k : ℤ))).var =
        (vsrc (offset + start + (k : ℤ))).var +
          (vsrc (t.V_ITa (5 * (start + tableOffset + (k : ℤ)) + 2))).var := by
  refine ⟨?_, ?_, ?_, ?_⟩
  · simp only [FarCatmarkSubdivisionTables.computeEdgePoints]
    rw [kernelLoop_get (edgePointStep t) (edgePointStep_frame t) k (stop - start).toNat
      (start + tableOffset) (offset + start) vsrc hk, edgePointStep_self]
    simp only [Vertex.var_mk]
    rw [kernelLoop_frame (edgePointStep t) (edgePointStep_frame t) k (start + tableOffset)
      (offset + start) vsrc _ (Or.inl he0),
      kernelLoop_frame (edgePointStep t) (edgePointStep_frame t) k (start + tableOffset)
        (offset + start) vsrc _ (Or.inl he1)]
  · simp only [FarCatmarkSubdivisionTables.computeVertexPointsB]
    rw [kernelLoop_get (vertexBStep t) (vertexBStep_frame t) k (stop - start).toNat
      (start + tableOffset) (offset + start) vsrc hk, vertexBStep_self]
    simp only [Vertex.var_mk]
    rw [kernelLoop_frame (vertexBStep t) (vertexBStep_frame t) k (start + tableOffset)
      (offset + start) vsrc _ (Or.inl hp)]
  · simp only [FarCatmarkSubdivisionTables.computeVertexPointsA]
    rw [kernelLoop_get (vertexAStep t false) (vertexAStep_frame t false) k
      (stop - start).toNat (start + tableOffset) (offset + start) vsrc hk, vertexAStep_self]
    simp only [Vertex.var_mk, Bool.false_eq_true, if_false]
    rw [kernelLoop_frame (vertexAStep t false) (vertexAStep_frame t false) k
      (start + tableOffset) (offset + start) vsrc _ (Or.inl hp)]
    ring
  · simp only [FarCatmarkSubdivisionTables.computeVertexPointsA]
    rw [kernelLoop_get (vertexAStep t true) (vertexAStep_frame t true) k
      (stop - start).toNat (start + tableOffset) (offset + start) vsrc hk, vertexAStep_self]
    simp only [Vertex.var_mk, if_true]
    rw [kernelLoop_frame (vertexAStep t true) (vertexAStep_frame t true) k
      (start + tableOffset) (offset + start) vsrc (offset + start + (k : ℤ))
        (Or.inr (by omega)),
      kernelLoop_frame (vertexAStep t true) (vertexAStep_frame t true) k
        (start + tableOffset) (offset + start) vsrc _ (Or.inl hp)]

/-- Concrete tables for the face-point witness: one face-point of valence 4
averaging source vertices 0..3. -/
def tC6 : FarCatmarkSubdivisionTables where
  F_ITa := fun q => if q = 1 then 4 else 0
  F_IT := fun q => q
  E_IT := fun _ => 0
  E_W := fun _ => 0
  V_ITa := fun _ => 0
  V_IT := fun _ => 0
  V_W := fun _ => 0

/-- Concrete corners A=1, B=2, C=3, D=4 for the face-point witness. -/
def vsrcC6 : ℤ → Vertex := fun q =>
  if q = 0 then ⟨1, 1⟩ else if q = 1 then ⟨2, 0⟩ else if q = 2 then ⟨3, 0⟩
  else if q = 3 then ⟨4, 0⟩ else ⟨0, 0⟩

theorem computeFacePoints_spec_witness :
    ((0 : ℕ) < ((1 : ℤ) - 0).toNat ∧
      3 ≤ tC6.F_ITa (2 * (0 + 0 + ((0 : ℕ) : ℤ)) + 1)) ∧
    (tC6.computeFacePoints 4 0 0 1 vsrcC6 (4 + 0 + ((0 : ℕ) : ℤ)) =
        ⟨(1 / (tC6.F_ITa (2 * (0 + 0 + ((0 : ℕ) : ℤ)) + 1) : ℚ)) *
            ((faceSrcIndices tC6 (0 + 0 + ((0 : ℕ) : ℤ))).map
              (fun q => (vsrcC6 q).pos)).sum,
          (1 / (tC6.F_ITa (2 * (0 + 0 + ((0 : ℕ) : ℤ)) + 1) : ℚ)) *
            ((faceSrcIndices tC6 (0 + 0 + ((0 : ℕ) : ℤ))).map
              (fun q => (vsrcC6 q).var)).sum⟩ ∧
      ((List.range (tC6.F_ITa (2 * (0 + 0 + ((0 : ℕ) : ℤ)) + 1)).toNat).map
        (fun (_ : ℕ) =>
          1 / (tC6.F_ITa (2 * (0 + 0 + ((0 : ℕ) : ℤ)) + 1) : ℚ))).sum = 1) ∧
    (tC6.computeFacePoints 4 0 0 1 vsrcC6 (4 + 0 + ((0 : ℕ) : ℤ))).pos = 5 / 2 := by
  have hmain := computeFacePoints_spec tC6 4 0 0 1 vsrcC6 0 (by decide) (by decide) (by decide)
  refine ⟨⟨by decide, by decide⟩, hmain, ?_⟩
  rw [hmain.1]
  simp only [Vertex.pos_mk]
  norm_num [faceSrcIndices, tC6, vsrcC6, show Int.toNat 4 = 4 from rfl,
    show List.range 4 = [0, 1, 2, 3] from rfl, Function.comp_def]

/-- C3: for every edge-point in range, the destination is cleared and
endpoints `e0`, `e1` are accumulated with weight `wVertex`, while `e2`, `e3`
are accumulated with weight `wFace` exactly when `e2 ≠ -1`; on a
boundary/fully-sharp edge (`e2 = -1`) the kernel fetches no source vertex
beyond the two endpoints, the primary weight sum is `2 * wVertex`, and
`wVertex = 1/2` yields the exact midpoint. -/
theorem computeEdgePoints_spec (t : FarCatmarkSubdivisionTables)
    (offset tableOffset start stop : ℤ) (vsrc : ℤ → Vertex) (k : ℕ)
    (hk : k < (stop - start).toNat)
    (he0 : t.E_IT (4 * (start + tableOffset + (k : ℤ))) < offset + start)
    (he1 : t.E_IT (4 * (start + tableOffset + (k : ℤ)) + 1) < offset + start)
    (he23 : t.E_IT (4 * (start + tableOffset + (k : ℤ)) + 2) ≠ -1 →
      t.E_IT (4 * (start + tableOffset + (k : ℤ)) + 2) < offset + start ∧
        t.E_IT (4 * (start + tableOffset + (k : ℤ)) + 3) < offset + start) :
    t.computeEdgePoints offset tableOffset start stop vsrc (offset + start + (k : ℤ)) =
      ⟨t.E_W ((start + tableOffset + (k : ℤ)) * 2) *
            (vsrc (t.E_IT (4 * (start + tableOffset + (k : ℤ))))).pos +
          t.E_W ((start + tableOffset + (k : ℤ)) * 2) *
            (vsrc (t.E_IT (4 * (start + tableOffset + (k : ℤ)) + 1))).pos +
          (if t.E_IT (4 * (start + tableOffset + (k : ℤ)) + 2) ≠ -1 then
            t.E_W ((start + tableOffset + (k : ℤ)) * 2 + 1) *
                (vsrc (t.E_IT (4 * (start + tableOffset + (k : ℤ)) + 2))).pos +
              t.E_W ((start + tableOffset + (k : ℤ)) * 2 + 1) *
                (vsrc (t.E_IT (4 * (start + tableOffset + (k : ℤ)) + 3))).pos
          else 0),
        (1 / 2) * (vsrc (t.E_IT (4 * (start + tableOffset + (k : ℤ))))).var +
          (1 / 2) * (vsrc (t.E_IT (4 * (start + tableOffset + (k : ℤ)) + 1))).var⟩ ∧
    (t.E_IT (4 * (start + tableOffset + (k : ℤ)) + 2) = -1 →
      (t.computeEdgePoints offset tableOffset start stop vsrc
          (offset + start + (k : ℤ))).pos =
        t.E_W ((start + tableOffset + (k : ℤ)) * 2) *
          ((vsrc (t.E_IT (4 * (start + tableOffset + (k : ℤ))))).pos +
            (vsrc (t.E_IT (4 * (start + tableOffset + (k : ℤ)) + 1))).pos)) ∧
    (t.E_IT (4 * (start + tableOffset + (k : ℤ)) + 2) = -1 →
      t.E_W ((start + tableOffset + (k : ℤ)) * 2) = 1 / 2 →
      (t.computeEdgePoints offset tableOffset start stop vsrc
          (offset + start + (k : ℤ))).pos =
        (1 / 2) * (vsrc (t.E_IT (4 * (start + tableOffset + (k : ℤ))))).pos +
          (1 / 2) * (vsrc (t.E_IT (4 * (start + tableOffset + (k : ℤ)) + 1))).pos) ∧
    (t.E_IT (4 * (start + tableOffset + (k : ℤ)) + 2) = -1 →
      edgeSrcIndices t (start + tableOffset + (k : ℤ)) =
        [t.E_IT (4 * (start + tableOffset + (k : ℤ))),
          t.E_IT (4 * (start + tableOffset + (k : ℤ)) + 1)]) ∧
    (t.E_IT (4 * (start + tableOffset + (k : ℤ)) + 2) = -1 →
      ∀ (buf buf' : ℤ → Vertex) (d : ℤ),
        buf (t.E_IT (4 * (start + tableOffset + (k : ℤ)))) =
          buf' (t.E_IT (4 * (start + tableOffset + (k : ℤ)))) →
        buf (t.E_IT (4 * (start + tableOffset + (k : ℤ)) + 1)) =
          buf' (t.E_IT (4 * (start + tableOffset + (k : ℤ)) + 1)) →
        edgePointStep t buf (start + tableOffset + (k : ℤ)) d d =
          edgePointStep t buf' (start + tableOffset + (k : ℤ)) d d) := by
  have ha := computeEdgePoints_at t offset tableOffset start stop vsrc k hk he0 he1 he23
  refine ⟨ha, ?_, ?_, ?_, ?_⟩
  · intro h2
    rw [ha]
    simp only [Vertex.pos_mk]
    rw [if_neg (by simp [h2])]
    ring
  · intro h2 hw
    rw [ha]
    simp only [Vertex.pos_mk]
    rw [if_neg (by simp [h2]), hw]
    ring
  · intro h2
    simp [edgeSrcIndices, h2]
  · intro h2 buf buf' d hb0 hb1
    rw [edgePointStep_self, edgePointStep_self, hb0, hb1]
    have hcond : ¬(t.E_IT (4 * (start + tableOffset + (k : ℤ)) + 2) ≠ -1) :=
      fun hx => hx h2
    rw [if_neg hcond, if_neg hcond]

/-- Concrete tables for the boundary-edge witness: one fully sharp boundary
edge with endpoints 0 and 1, `e2 = -1`, `wVertex = 1/2`. -/
def tC3 : FarCatmarkSubdivisionTables where
  F_ITa := fun _ => 0
  F_IT := fun _ => 0
  E_IT := fun q => if q = 0 then 0 else if q = 1 then 1 else if q = 2 then -1 else 0
  E_W := fun q => if q = 0 then 1 / 2 else 0
  V_ITa := fun _ => 0
  V_IT := fun _ => 0
  V_W := fun _ => 0

/-- Concrete endpoints e0=1, e1=3 for the boundary-edge witness. -/
def vsrcC3 : ℤ → Vertex := fun q =>
  if q = 0 then ⟨1, 2⟩ else if q = 1 then ⟨3, 4⟩ else ⟨0, 0⟩

theorem computeEdgePoints_spec_witness :
    ((0 : ℕ) < ((1 : ℤ) - 0).toNat ∧
      tC3.E_IT (4 * (0 + 0 + ((0 : ℕ) : ℤ))) < 2 + 0 ∧
      tC3.E_IT (4 * (0 + 0 + ((0 : ℕ) : ℤ)) + 1) < 2 + 0 ∧
      tC3.E_IT (4 * (0 + 0 + ((0 : ℕ) : ℤ)) + 2) = -1) ∧
    ((tC3.computeEdgePoints 2 0 0 1 vsrcC3 (2 + 0 + ((0 : ℕ) : ℤ))).pos =
      (1 / 2) * (vsrcC3 (tC3.E_IT (4 * (0 + 0 + ((0 : ℕ) : ℤ))))).pos +
        (1 / 2) * (vsrcC3 (tC3.E_IT (4 * (0 + 0 + ((0 : ℕ) : ℤ)) + 1))).pos) ∧
    (tC3.computeEdgePoints 2 0 0 1 vsrcC3 (2 + 0 + ((0 : ℕ) : ℤ))).pos = 2 := by
  have hmain := computeEdgePoints_spec tC3 2 0 0 1 vsrcC3 0 (by decide) (by decide)
    (by decide) (by decide)
  have hmid := hmain.2.2.1 (by decide) (by norm_num [tC3])
  refine ⟨⟨by decide, by decide, by decide, by decide⟩, hmid, ?_⟩
  rw [hmid]
  norm_num [tC3, vsrcC3]

/-- C4: for every vertex-point processed by `computeVertexPointsB` with
valence `n` and sharpness weight `s` used un-inverted: the destination is
cleared first, the parent is accumulated with weight `s * (n-2)*n/n²`, and
each of the `2n` stored neighbors with weight `s / n²`; in particular for
`n = 4`, `s = 1` the output is half the parent plus one sixteenth of the sum
of the eight neighbor contributions. -/
theorem computeVertexPointsB_spec (t : FarCatmarkSubdivisionTables)
    (offset tableOffset start stop : ℤ) (vsrc : ℤ → Vertex) (k : ℕ)
    (hk : k < (stop - start).toNat)
    (hp : t.V_ITa (5 * (start + tableOffset + (k : ℤ)) + 2) < offset + start)
    (hnb : ∀ j ∈ List.range (t.V_ITa (5 * (start + tableOffset + (k : ℤ)) + 1)).toNat,
      t.V_IT (t.V_ITa (5 * (start + tableOffset + (k : ℤ)) + 0) + (j : ℤ) * 2) <
          offset + start ∧
        t.V_IT (t.V_ITa (5 * (start + tableOffset + (k : ℤ)) + 0) + (j : ℤ) * 2 + 1) <
          offset + start) :
    t.computeVertexPointsB offset tableOffset start stop vsrc (offset + start + (k : ℤ)) =
      ⟨t.V_W (start + tableOffset + (k : ℤ)) *
            (((t.V_ITa (5 * (start + tableOffset + (k : ℤ)) + 1) : ℚ) - 2) *
              (t.V_ITa (5 * (start + tableOffset + (k : ℤ)) + 1) : ℚ) *
              (1 / ((t.V_ITa (5 * (start + tableOffset + (k : ℤ)) + 1) : ℚ) *
                (t.V_ITa (5 * (start + tableOffset + (k : ℤ)) + 1) : ℚ)))) *
            (vsrc (t.V_ITa (5 * (start + tableOffset + (k : ℤ)) + 2))).pos +
          t.V_W (start + tableOffset + (k : ℤ)) *
            (1 / ((t.V_ITa (5 * (start + tableOffset + (k : ℤ)) + 1) : ℚ) *
              (t.V_ITa (5 * (start + tableOffset + (k : ℤ)) + 1) : ℚ))) *
            ((List.range (t.V_ITa (5 * (start + tableOffset + (k : ℤ)) + 1)).toNat).map
              (fun (j : ℕ) =>
                (vsrc (t.V_IT (t.V_ITa (5 * (start + tableOffset + (k : ℤ)) + 0) +
                  (j : ℤ) * 2))).pos +
                  (vsrc (t.V_IT (t.V_ITa (5 * (start + tableOffset + (k : ℤ)) + 0) +
                    (j : ℤ) * 2 + 1))).pos)).sum,
        (vsrc (t.V_ITa (5 * (start + tableOffset + (k : ℤ)) + 2))).var⟩ ∧
    (t.V_ITa (5 * (start + tableOffset + (k : ℤ)) + 1) = 4 →
      t.V_W (start + tableOffset + (k : ℤ)) = 1 →
      (t.computeVertexPointsB offset tableOffset start stop vsrc
          (offset + start + (k : ℤ))).pos =
        (1 / 2) * (vsrc (t.V_ITa (5 * (start + tableOffset + (k : ℤ)) + 2))).pos +
          (1 / 16) *
            ((List.range 4).map
              (fun (j : ℕ) =>
                (vsrc (t.V_IT (t.V_ITa (5 * (start + tableOffset + (k : ℤ)) + 0) +
                  (j : ℤ) * 2))).pos +
                  (vsrc (t.V_IT (t.V_ITa (5 * (start + tableOffset + (k : ℤ)) + 0) +
                    (j : ℤ) * 2 + 1))).pos)).sum) := by
  have ha := computeVertexPointsB_at t offset tableOffset start stop vsrc k hk hp hnb
  refine ⟨ha, ?_⟩
  intro h4 hw
  rw [ha]
  simp only [Vertex.pos_mk, h4, hw]
  norm_num [show Int.toNat 4 = 4 from rfl]

/-- Concrete tables for the smooth-vertex witness: valence 4, sharpness 1,
parent 8, neighbors 0..7. -/
def tC4 : FarCatmarkSubdivisionTables where
  F_ITa := fun _ => 0
  F_IT := fun _ => 0
  E_IT := fun _ => 0
  E_W := fun _ => 0
  V_ITa := fun q => if q = 1 then 4 else if q = 2 then 8 else 0
  V_IT := fun q => q
  V_W := fun _ => 1

/-- Concrete buffer for the smooth-vertex witness: parent 8 has position 2,
the eight neighbors have position 1. -/
def vsrcC4 : ℤ → Vertex := fun q => if q = 8 then ⟨2, 3⟩ else ⟨1, 0⟩

theorem computeVertexPointsB_spec_witness :
    ((0 : ℕ) < ((1 : ℤ) - 0).toNat ∧
      tC4.V_ITa (5 * (0 + 0 + ((0 : ℕ) : ℤ)) + 2) < 9 + 0 ∧
      tC4.V_ITa (5 * (0 + 0 + ((0 : ℕ) : ℤ)) + 1) = 4) ∧
    ((tC4.computeVertexPointsB 9 0 0 1 vsrcC4 (9 + 0 + ((0 : ℕ) : ℤ))).pos =
      (1 / 2) * (vsrcC4 (tC4.V_ITa (5 * (0 + 0 + ((0 : ℕ) : ℤ)) + 2))).pos +
        (1 / 16) *
          ((List.range 4).map
            (fun (j : ℕ) =>
              (vsrcC4 (tC4.V_IT (tC4.V_ITa (5 * (0 + 0 + ((0 : ℕ) : ℤ)) + 0) +
                (j : ℤ) * 2))).pos +
                (vsrcC4 (tC4.V_IT (tC4.V_ITa (5 * (0 + 0 + ((0 : ℕ) : ℤ)) + 0) +
                  (j : ℤ) * 2 + 1))).pos)).sum) ∧
    (tC4.computeVertexPointsB 9 0 0 1 vsrcC4 (9 + 0 + ((0 : ℕ) : ℤ))).pos = 3 / 2 := by
  have hmain := computeVertexPointsB_spec tC4 9 0 0 1 vsrcC4 0 (by decide) (by decide)
    (by decide)
  have hval := hmain.2 (by decide) (by norm_num [tC4])
  refine ⟨⟨by decide, by decide, by decide⟩, hval, ?_⟩
  rw [hval]
  norm_num [tC4, vsrcC4, show List.range 4 = [0, 1, 2, 3] from rfl]

/-- C1: in `computeVertexPointsA` the effective accumulation weight is
`1 - s` on the first pass (`pass = false`, which clears) and `s` on the
second pass (`pass = true`, no clear), where `s` is the stored sharpness
weight; it is replaced by `1 - w` exactly when it lies strictly between 0
and 1 and the valence entry is positive (the code tests `n > 0`), and this
is the weight applied by the kernel to the vertex-point's primary
accumulation. -/
theorem computeVertexPointsA_effective_weight (t : FarCatmarkSubdivisionTables)
    (offset : ℤ) (pass : Bool) (tableOffset start stop : ℤ) (vsrc : ℤ → Vertex) (k : ℕ)
    (hk : k < (stop - start).toNat)
    (hp : t.V_ITa (5 * (start + tableOffset + (k : ℤ)) + 2) < offset + start)
    (hcr : ¬(t.V_ITa (5 * (start + tableOffset + (k : ℤ)) + 3) = -1 ∨
        (pass = false ∧ t.V_ITa (5 * (start + tableOffset + (k : ℤ)) + 1) = -1)) →
      t.V_ITa (5 * (start + tableOffset + (k : ℤ)) + 3) < offset + start ∧
        t.V_ITa (5 * (start + tableOffset + (k : ℤ)) + 4) < offset + start) :
    vertexAEffectiveWeight t pass (start + tableOffset + (k : ℤ)) =
      (if 0 < (if pass then t.V_W (start + tableOffset + (k : ℤ))
            else 1 - t.V_W (start + tableOffset + (k : ℤ))) ∧
          (if pass then t.V_W (start + tableOffset + (k : ℤ))
            else 1 - t.V_W (start + tableOffset + (k : ℤ))) < 1 ∧
          0 < t.V_ITa (5 * (start + tableOffset + (k : ℤ)) + 1) then
        1 - (if pass then t.V_W (start + tableOffset + (k : ℤ))
          else 1 - t.V_W (start + tableOffset + (k : ℤ)))
      else
        (if pass then t.V_W (start + tableOffset + (k : ℤ))
          else 1 - t.V_W (start + tableOffset + (k : ℤ)))) ∧
    t.computeVertexPointsA offset pass tableOffset start stop vsrc
        (offset + start + (k : ℤ)) =
      ⟨(if pass then (vsrc (offset + start + (k : ℤ))).pos else 0) +
          (if t.V_ITa (5 * (start + tableOffset + (k : ℤ)) + 3) = -1 ∨
              (pass = false ∧ t.V_ITa (5 * (start + tableOffset + (k : ℤ)) + 1) = -1) then
            vertexAEffectiveWeight t pass (start + tableOffset + (k : ℤ)) *
              (vsrc (t.V_ITa (5 * (start + tableOffset + (k : ℤ)) + 2))).pos
          else
            vertexAEffectiveWeight t pass (start + tableOffset + (k : ℤ)) * (3 / 4) *
                (vsrc (t.V_ITa (5 * (start + tableOffset + (k : ℤ)) + 2))).pos +
              vertexAEffectiveWeight t pass (start + tableOffset + (k : ℤ)) * (1 / 8) *
                (vsrc (t.V_ITa (5 * (start + tableOffset + (k : ℤ)) + 3))).pos +
              vertexAEffectiveWeight t pass (start + tableOffset + (k : ℤ)) * (1 / 8) *
                (vsrc (t.V_ITa (5 * (start + tableOffset + (k : ℤ)) + 4))).pos),
        (if pass then (vsrc (offset + start + (k : ℤ))).var else 0) +
          (vsrc (t.V_ITa (5 * (start + tableOffset + (k : ℤ)) + 2))).var⟩ :=
  ⟨rfl, computeVertexPointsA_at t offset pass tableOffset start stop vsrc k hk hp hcr⟩

/-- Concrete tables for the kernel-A weight witness: a corner vertex
(`eidx0 = -1`) with defined valence 4 and fractional sharpness 1/2, so the
first-pass weight `1 - 1/2` is re-inverted to `1/2`. -/
def tC1 : FarCatmarkSubdivisionTables where
  F_ITa := fun _ => 0
  F_IT := fun _ => 0
  E_IT := fun _ => 0
  E_W := fun _ => 0
  V_ITa := fun q => if q = 1 then 4 else if q = 3 then -1 else if q = 4 then -1 else 0
  V_IT := fun _ => 0
  V_W := fun _ => 1 / 2

/-- Concrete buffer for the kernel-A weight witness: the parent vertex 0 has
position 8. -/
def vsrcC1 : ℤ → Vertex := fun q => if q = 0 then ⟨8, 1⟩ else ⟨0, 0⟩

theorem computeVertexPointsA_effective_weight_witness :
    ((0 : ℕ) < ((1 : ℤ) - 0).toNat ∧
      tC1.V_ITa (5 * (0 + 0 + ((0 : ℕ) : ℤ)) + 2) < 1 + 0) ∧
    (vertexAEffectiveWeight tC1 false (0 + 0 + ((0 : ℕ) : ℤ)) =
      (if 0 < (if false then tC1.V_W (0 + 0 + ((0 : ℕ) : ℤ))
            else 1 - tC1.V_W (0 + 0 + ((0 : ℕ) : ℤ))) ∧
          (if false then tC1.V_W (0 + 0 + ((0 : ℕ) : ℤ))
            else 1 - tC1.V_W (0 + 0 + ((0 : ℕ) : ℤ))) < 1 ∧
          0 < tC1.V_ITa (5 * (0 + 0 + ((0 : ℕ) : ℤ)) + 1) then
        1 - (if false then tC1.V_W (0 + 0 + ((0 : ℕ) : ℤ))
          else 1 - tC1.V_W (0 + 0 + ((0 : ℕ) : ℤ)))
      else
        (if false then tC1.V_W (0 + 0 + ((0 : ℕ) : ℤ))
          else 1 - tC1.V_W (0 + 0 + ((0 : ℕ) : ℤ))))) ∧
    vertexAEffectiveWeight tC1 false (0 + 0 + ((0 : ℕ) : ℤ)) = 1 / 2 ∧
    (tC1.computeVertexPointsA 1 false 0 0 1 vsrcC1 (1 + 0 + ((0 : ℕ) : ℤ))).pos = 4 := by
  have hmain := computeVertexPointsA_effective_weight tC1 1 false 0 0 1 vsrcC1 0
    (by decide) (by decide) (by decide)
  have hw : vertexAEffectiveWeight tC1 false (0 + 0 + ((0 : ℕ) : ℤ)) = 1 / 2 := by
    simp only [vertexAEffectiveWeight, tC1]
    norm_num
  refine ⟨⟨by decide, by decide⟩, hmain.1, hw, ?_⟩
  rw [hmain.2]
  simp only [Vertex.pos_mk]
  rw [hw]
  norm_num [tC1, vsrcC1]

/-- C5: in every invocation of `computeVertexPointsA`, exactly one of two
rules fires on the primary attribute of each vertex-point in range: the
corner rule (parent alone with the full effective weight) when
`creaseEdge0 = -1` or the pass is the first pass and the valence entry is
`-1`; otherwise the crease rule (parent with 3/4 of the effective weight and
each crease-edge vertex with 1/8 of it). -/
theorem computeVertexPointsA_rule_dichotomy (t : FarCatmarkSubdivisionTables)
    (offset : ℤ) (pass : Bool) (tableOffset start stop : ℤ) (vsrc : ℤ → Vertex) (k : ℕ)
    (hk : k < (stop - start).toNat)
    (hp : t.V_ITa (5 * (start + tableOffset + (k : ℤ)) + 2) < offset + start)
    (hcr : ¬(t.V_ITa (5 * (start + tableOffset + (k : ℤ)) + 3) = -1 ∨
        (pass = false ∧ t.V_ITa (5 * (start + tableOffset + (k : ℤ)) + 1) = -1)) →
      t.V_ITa (5 * (start + tableOffset + (k : ℤ)) + 3) < offset + start ∧
        t.V_ITa (5 * (start + tableOffset + (k : ℤ)) + 4) < offset + start) :
    ((t.V_ITa (5 * (start + tableOffset + (k : ℤ)) + 3) = -1 ∨
        (pass = false ∧ t.V_ITa (5 * (start + tableOffset + (k : ℤ)) + 1) = -1)) →
      t.computeVertexPointsA offset pass tableOffset start stop vsrc
          (offset + start + (k : ℤ)) =
        ⟨(if pass then (vsrc (offset + start + (k : ℤ))).pos else 0) +
            vertexAEffectiveWeight t pass (start + tableOffset + (k : ℤ)) *
              (vsrc (t.V_ITa (5 * (start + tableOffset + (k : ℤ)) + 2))).pos,
          (if pass then (vsrc (offset + start + (k : ℤ))).var else 0) +
            (vsrc (t.V_ITa (5 * (start + tableOffset + (k : ℤ)) + 2))).var⟩) ∧
    (¬(t.V_ITa (5 * (start + tableOffset + (k : ℤ)) + 3) = -1 ∨
        (pass = false ∧ t.V_ITa (5 * (start + tableOffset + (k : ℤ)) + 1) = -1)) →
      t.computeVertexPointsA offset pass tableOffset start stop vsrc
          (offset + start + (k : ℤ)) =
        ⟨(if pass then (vsrc (offset + start + (k : ℤ))).pos else 0) +
            (vertexAEffectiveWeight t pass (start + tableOffset + (k : ℤ)) * (3 / 4) *
                (vsrc (t.V_ITa (5 * (start + tableOffset + (k : ℤ)) + 2))).pos +
              vertexAEffectiveWeight t pass (start + tableOffset + (k : ℤ)) * (1 / 8) *
                (vsrc (t.V_ITa (5 * (start + tableOffset + (k : ℤ)) + 3))).pos +
              vertexAEffectiveWeight t pass (start + tableOffset + (k : ℤ)) * (1 / 8) *
                (vsrc (t.V_ITa (5 * (start + tableOffset + (k : ℤ)) + 4))).pos),
          (if pass then (vsrc (offset + start + (k : ℤ))).var else 0) +
            (vsrc (t.V_ITa (5 * (start + tableOffset + (k : ℤ)) + 2))).var⟩) := by
  have ha := computeVertexPointsA_at t offset pass tableOffset start stop vsrc k hk hp hcr
  constructor
  · intro hcond
    rw [ha, if_pos hcond]
  · intro hcond
    rw [ha, if_neg hcond]

/-- Concrete tables for the crease-rule witness: a crease vertex with parent
0 and crease-edge vertices 1 and 2, valence 4, sharpness 1/2. -/
def tC5 : FarCatmarkSubdivisionTables where
  F_ITa := fun _ => 0
  F_IT := fun _ => 0
  E_IT := fun _ => 0
  E_W := fun _ => 0
  V_ITa := fun q => if q = 1 then 4 else if q = 3 then 1 else if q = 4 then 2 else 0
  V_IT := fun _ => 0
  V_W := fun _ => 1 / 2

/-- Concrete buffer for the crease-rule witness: parent 8, crease edges 16
and 32. -/
def vsrcC5 : ℤ → Vertex := fun q =>
  if q = 0 then ⟨8, 1⟩ else if q = 1 then ⟨16, 0⟩ else if q = 2 then ⟨32, 0⟩ else ⟨0, 0⟩

theorem computeVertexPointsA_rule_dichotomy_witness :
    ((0 : ℕ) < ((1 : ℤ) - 0).toNat ∧
      tC5.V_ITa (5 * (0 + 0 + ((0 : ℕ) : ℤ)) + 2) < 3 + 0 ∧
      ¬(tC5.V_ITa (5 * (0 + 0 + ((0 : ℕ) : ℤ)) + 3) = -1 ∨
        ((false : Bool) = false ∧ tC5.V_ITa (5 * (0 + 0 + ((0 : ℕ) : ℤ)) + 1) = -1))) ∧
    tC5.computeVertexPointsA 3 false 0 0 1 vsrcC5 (3 + 0 + ((0 : ℕ) : ℤ)) =
      ⟨(if false then (vsrcC5 (3 + 0 + ((0 : ℕ) : ℤ))).pos else 0) +
          (vertexAEffectiveWeight tC5 false (0 + 0 + ((0 : ℕ) : ℤ)) * (3 / 4) *
              (vsrcC5 (tC5.V_ITa (5 * (0 + 0 + ((0 : ℕ) : ℤ)) + 2))).pos +
            vertexAEffectiveWeight tC5 false (0 + 0 + ((0 : ℕ) : ℤ)) * (1 / 8) *
              (vsrcC5 (tC5.V_ITa (5 * (0 + 0 + ((0 : ℕ) : ℤ)) + 3))).pos +
            vertexAEffectiveWeight tC5 false (0 + 0 + ((0 : ℕ) : ℤ)) * (1 / 8) *
              (vsrcC5 (tC5.V_ITa (5 * (0 + 0 + ((0 : ℕ) : ℤ)) + 4))).pos),
        (if false then (vsrcC5 (3 + 0 + ((0 : ℕ) : ℤ))).var else 0) +
          (vsrcC5 (tC5.V_ITa (5 * (0 + 0 + ((0 : ℕ) : ℤ)) + 2))).var⟩ ∧
    (tC5.computeVertexPointsA 3 false 0 0 1 vsrcC5 (3 + 0 + ((0 : ℕ) : ℤ))).pos = 6 := by
  have hmain := computeVertexPointsA_rule_dichotomy tC5 3 false 0 0 1 vsrcC5 0
    (by decide) (by decide) (by decide)
  have hcrease := hmain.2 (by decide)
  have hw : vertexAEffectiveWeight tC5 false (0 + 0 + ((0 : ℕ) : ℤ)) = 1 / 2 := by
    simp only [vertexAEffectiveWeight, tC5]
    norm_num
  refine ⟨⟨by decide, by decide, by decide⟩, hcrease, ?_⟩
  rw [hcrease]
  simp only [Vertex.pos_mk]
  rw [hw]
  norm_num [tC5, vsrcC5]

/-- Concrete tables for the varying-behavior witness: an edge-point with
endpoints 0 and 1 (boundary), and a vertex-point with parent 0. -/
def tC2w : FarCatmarkSubdivisionTables where
  F_ITa := fun _ => 0
  F_IT := fun _ => 0
  E_IT := fun q => if q = 0 then 0 else if q = 1 then 1 else if q = 2 then -1 else 0
  E_W := fun q => if q = 0 then 1 / 2 else 0
  V_ITa := fun q => if q = 1 then 1 else 0
  V_IT := fun _ => 0
  V_W := fun _ => 1 / 2

/-- Concrete buffer for the varying-behavior witness. -/
def vsrcC2w : ℤ → Vertex := fun q =>
  if q = 0 then ⟨1, 3⟩ else if q = 1 then ⟨2, 5⟩ else ⟨0, 7⟩

theorem varying_attribute_behavior_witness :
    ((0 : ℕ) < ((1 : ℤ) - 0).toNat ∧
      tC2w.E_IT (4 * (0 + 0 + ((0 : ℕ) : ℤ))) < 2 + 0 ∧
      tC2w.E_IT (4 * (0 + 0 + ((0 : ℕ) : ℤ)) + 1) < 2 + 0 ∧
      tC2w.V_ITa (5 * (0 + 0 + ((0 : ℕ) : ℤ)) + 2) < 2 + 0) ∧
    ((tC2w.computeEdgePoints 2 0 0 1 vsrcC2w (2 + 0 + ((0 : ℕ) : ℤ))).var =
        (1 / 2) * (vsrcC2w (tC2w.E_IT (4 * (0 + 0 + ((0 : ℕ) : ℤ))))).var +
          (1 / 2) * (vsrcC2w (tC2w.E_IT (4 * (0 + 0 + ((0 : ℕ) : ℤ)) + 1))).var ∧
      (tC2w.computeVertexPointsB 2 0 0 1 vsrcC2w (2 + 0 + ((0 : ℕ) : ℤ))).var =
        (vsrcC2w (tC2w.V_ITa (5 * (0 + 0 + ((0 : ℕ) : ℤ)) + 2))).var ∧
      (tC2w.computeVertexPointsA 2 false 0 0 1 vsrcC2w (2 + 0 + ((0 : ℕ) : ℤ))).var =
        (vsrcC2w (tC2w.V_ITa (5 * (0 + 0 + ((0 : ℕ) : ℤ)) + 2))).var ∧
      (tC2w.computeVertexPointsA 2 true 0 0 1 vsrcC2w (2 + 0 + ((0 : ℕ) : ℤ))).var =
        (vsrcC2w (2 + 0 + ((0 : ℕ) : ℤ))).var +
          (vsrcC2w (tC2w.V_ITa (5 * (0 + 0 + ((0 : ℕ) : ℤ)) + 2))).var) ∧
    (tC2w.computeEdgePoints 2 0 0 1 vsrcC2w (2 + 0 + ((0 : ℕ) : ℤ))).var = 4 := by
  have hmain := varying_attribute_behavior tC2w 2 0 0 1 vsrcC2w 0 (by decide) (by decide)
    (by decide) (by decide)
  refine ⟨⟨by decide, by decide, by decide, by decide⟩, hmain, ?_⟩
  rw [hmain.1]
  norm_num [tC2w, vsrcC2w]

theorem kernelRange_frame (step : (ℤ → Vertex) → ℤ → ℤ → (ℤ → Vertex))
    (hs : StepFrame step) (offset tableOffset start stop j : ℤ) (buf : ℤ → Vertex)
    (hj : j < offset + start ∨ offset + stop ≤ j) :
    kernelLoop step (stop - start).toNat (start + tableOffset) (offset + start) buf j =
      buf j := by
  rcases le_or_lt start stop with hle | hlt
  · apply kernelLoop_frame step hs
    rcases hj with h | h
    · exact Or.inl h
    · right; omega
  · have h0 : (stop - start).toNat = 0 := by omega
    rw [h0]
    rfl

/-- C7: every invocation of the four kernels leaves the topology tables
unmodified, writes only the destination records at indices
`offset+start .. offset+stop-1`, and each destination index in that window
is written by exactly the one loop iteration that owns it (its final value
is that iteration's step output); every vertex record outside the window is
unchanged. -/
theorem kernels_frame_property (s : EngineState) (offset : ℤ) (pass : Bool)
    (tableOffset start stop : ℤ) :
    ((computeFacePointsS s offset tableOffset start stop).tables = s.tables ∧
      (computeEdgePointsS s offset tableOffset start stop).tables = s.tables ∧
      (computeVertexPointsAS s offset pass tableOffset start stop).tables = s.tables ∧
      (computeVertexPointsBS s offset tableOffset start stop).tables = s.tables) ∧
    (∀ j : ℤ, j < offset + start ∨ offset + stop ≤ j →
      (computeFacePointsS s offset tableOffset start stop).buf j = s.buf j ∧
      (computeEdgePointsS s offset tableOffset start stop).buf j = s.buf j ∧
      (computeVertexPointsAS s offset pass tableOffset start stop).buf j = s.buf j ∧
      (computeVertexPointsBS s offset tableOffset start stop).buf j = s.buf j) ∧
    (∀ k : ℕ, k < (stop - start).toNat →
      (computeFacePointsS s offset tableOffset start stop).buf
          (offset + start + (k : ℤ)) =
        facePointStep s.tables
          (kernelLoop (facePointStep s.tables) k (start + tableOffset) (offset + start)
            s.buf)
          (start + tableOffset + (k : ℤ)) (offset + start + (k : ℤ))
          (offset + start + (k : ℤ)) ∧
      (computeEdgePointsS s offset tableOffset start stop).buf
          (offset + start + (k : ℤ)) =
        edgePointStep s.tables
          (kernelLoop (edgePointStep s.tables) k (start + tableOffset) (offset + start)
            s.buf)
          (start + tableOffset + (k : ℤ)) (offset + start + (k : ℤ))
          (offset + start + (k : ℤ)) ∧
      (computeVertexPointsAS s offset pass tableOffset start stop).buf
          (offset + start + (k : ℤ)) =
        vertexAStep s.tables pass
          (kernelLoop (vertexAStep s.tables pass) k (start + tableOffset) (offset + start)
            s.buf)
          (start + tableOffset + (k : ℤ)) (offset + start + (k : ℤ))
          (offset + start + (k : ℤ)) ∧
      (computeVertexPointsBS s offset tableOffset start stop).buf
          (offset + start + (k : ℤ)) =
        vertexBStep s.tables
          (kernelLoop (vertexBStep s.tables) k (start + tableOffset) (offset + start)
            s.buf)
          (start + tableOffset + (k : ℤ)) (offset + start + (k : ℤ))
          (offset + start + (k : ℤ))) := by
  refine ⟨⟨rfl, rfl, rfl, rfl⟩, ?_, ?_⟩
  · intro j hj
    exact ⟨kernelRange_frame _ (facePointStep_frame s.tables) offset tableOffset start stop
        j s.buf hj,
      kernelRange_frame _ (edgePointStep_frame s.tables) offset tableOffset start stop
        j s.buf hj,
      kernelRange_frame _ (vertexAStep_frame s.tables pass) offset tableOffset start stop
        j s.buf hj,
      kernelRange_frame _ (vertexBStep_frame s.tables) offset tableOffset start stop
        j s.buf hj⟩
  · intro k hk
    exact ⟨kernelLoop_get _ (facePointStep_frame s.tables) k (stop - start).toNat
        (start + tableOffset) (offset + start) s.buf hk,
      kernelLoop_get _ (edgePointStep_frame s.tables) k (stop - start).toNat
        (start + tableOffset) (offset + start) s.buf hk,
      kernelLoop_get _ (vertexAStep_frame s.tables pass) k (stop - start).toNat
        (start + tableOffset) (offset + start) s.buf hk,
      kernelLoop_get _ (vertexBStep_frame s.tables) k (stop - start).toNat
        (start + tableOffset) (offset + start) s.buf hk⟩

/-- Concrete engine state for the frame-property witness. -/
def sC7 : EngineState where
  tables :=
    { F_ITa := fun _ => 0
      F_IT := fun _ => 0
      E_IT := fun _ => 0
      E_W := fun _ => 0
      V_ITa := fun _ => 0
      V_IT := fun _ => 0
      V_W := fun _ => 0 }
  buf := fun _ => ⟨1, 2⟩

theorem kernels_frame_property_witness :
    (((0 : ℤ) < 1 + 0 ∨ (1 : ℤ) + 1 ≤ 0) ∧ (0 : ℕ) < ((1 : ℤ) - 0).toNat) ∧
    ((computeFacePointsS sC7 1 0 0 1).buf 0 = sC7.buf 0 ∧
      (computeEdgePointsS sC7 1 0 0 1).buf 0 = sC7.buf 0 ∧
      (computeVertexPointsAS sC7 1 false 0 0 1).buf 0 = sC7.buf 0 ∧
      (computeVertexPointsBS sC7 1 0 0 1).buf 0 = sC7.buf 0) ∧
    ((computeFacePointsS sC7 1 0 0 1).buf (1 + 0 + ((0 : ℕ) : ℤ)) =
        facePointStep sC7.tables
          (kernelLoop (facePointStep sC7.tables) 0 (0 + 0) (1 + 0) sC7.buf)
          (0 + 0 + ((0 : ℕ) : ℤ)) (1 + 0 + ((0 : ℕ) : ℤ)) (1 + 0 + ((0 : ℕ) : ℤ)) ∧
      (computeEdgePointsS sC7 1 0 0 1).buf (1 + 0 + ((0 : ℕ) : ℤ)) =
        edgePointStep sC7.tables
          (kernelLoop (edgePointStep sC7.tables) 0 (0 + 0) (1 + 0) sC7.buf)
          (0 + 0 + ((0 : ℕ) : ℤ)) (1 + 0 + ((0 : ℕ) : ℤ)) (1 + 0 + ((0 : ℕ) : ℤ)) ∧
      (computeVertexPointsAS sC7 1 false 0 0 1).buf (1 + 0 + ((0 : ℕ) : ℤ)) =
        vertexAStep sC7.tables false
          (kernelLoop (vertexAStep sC7.tables false) 0 (0 + 0) (1 + 0) sC7.buf)
          (0 + 0 + ((0 : ℕ) : ℤ)) (1 + 0 + ((0 : ℕ) : ℤ)) (1 + 0 + ((0 : ℕ) : ℤ)) ∧
      (computeVertexPointsBS sC7 1 0 0 1).buf (1 + 0 + ((0 : ℕ) : ℤ)) =
        vertexBStep sC7.tables
          (kernelLoop (vertexBStep sC7.tables) 0 (0 + 0) (1 + 0) sC7.buf)
          (0 + 0 + ((0 : ℕ) : ℤ)) (1 + 0 + ((0 : ℕ) : ℤ)) (1 + 0 + ((0 : ℕ) : ℤ))) :=
  ⟨⟨Or.inl (by decide), by decide⟩,
    (kernels_frame_property sC7 1 false 0 0 1).2.1 0 (Or.inl (by decide)),
    (kernels_frame_property sC7 1 false 0 0 1).2.2 0 (by decide)⟩

/-- C8: `GetNumTables` returns 7 for every instance and `GetScheme` returns
CATMARK; the transform-feedback compute context always allocates seven table
slots, constructs the five edge/vertex tables unconditionally, and
constructs the two face tables exactly when the source subdivision tables
report more than 5 tables (leaving those slots null otherwise). -/
theorem getNumTables_and_context_slots :
    (∀ t : FarCatmarkSubdivisionTables,
      t.GetNumTables = 7 ∧ t.GetScheme = Scheme.CATMARK) ∧
    osdTfNumTableSlots = 7 ∧
    (∀ n : ℤ,
      (mkOsdGLSLTransformFeedbackComputeContext n).e_IT = true ∧
      (mkOsdGLSLTransformFeedbackComputeContext n).v_IT = true ∧
      (mkOsdGLSLTransformFeedbackComputeContext n).v_ITa = true ∧
      (mkOsdGLSLTransformFeedbackComputeContext n).e_W = true ∧
      (mkOsdGLSLTransformFeedbackComputeContext n).v_W = true ∧
      ((mkOsdGLSLTransformFeedbackComputeContext n).f_IT = true ↔ 5 < n) ∧
      ((mkOsdGLSLTransformFeedbackComputeContext n).f_ITa = true ↔ 5 < n)) ∧
    (∀ t : FarCatmarkSubdivisionTables,
      (mkOsdGLSLTransformFeedbackComputeContext t.GetNumTables).f_IT = true ∧
      (mkOsdGLSLTransformFeedbackComputeContext t.GetNumTables).f_ITa = true) := by
  refine ⟨fun t => ⟨rfl, rfl⟩, rfl, fun n => ⟨rfl, rfl, rfl, rfl, rfl, ?_, ?_⟩,
    fun t => ⟨?_, ?_⟩⟩
  · simp [mkOsdGLSLTransformFeedbackComputeContext]
  · simp [mkOsdGLSLTransformFeedbackComputeContext]
  · simp [mkOsdGLSLTransformFeedbackComputeContext, FarCatmarkSubdivisionTables.GetNumTables]
  · simp [mkOsdGLSLTransformFeedbackComputeContext, FarCatmarkSubdivisionTables.GetNumTables]

theorem pairReadList_length (h : ℤ) :
    ∀ m : ℕ,
      ((List.range m).flatMap
        (fun (j : ℕ) => [h + (j : ℤ) * 2, h + (j : ℤ) * 2 + 1])).length = 2 * m := by
  intro m
  induction m with
  | zero => simp
  | succ m ih =>
    simp only [List.range_succ, List.flatMap_append, List.length_append, ih,
      List.flatMap_cons, List.flatMap_nil, List.append_nil, List.length_cons,
      List.length_nil]
    omega

theorem vertexBAccumJ_VIT_congr (t t2 : FarCatmarkSubdivisionTables) (buf : ℤ → Vertex)
    (h : ℤ) (w : ℚ) (hIT : t2.V_IT = t.V_IT) :
    ∀ (m : ℕ) (v : Vertex), vertexBAccumJ t2 buf h w m v = vertexBAccumJ t buf h w m v := by
  intro m
  induction m with
  | zero => intro v; rfl
  | succ m ih => intro v; simp only [vertexBAccumJ, hIT, ih]

/-- C9: `computeVertexPointsB` reads exactly the `2n` neighbor entries and
never consults the crease-edge slots or the documented sentinels; its
division `1/(n*n)` carries no zero guard, but under the precondition that
the valence is at least 1 and the neighbor offset is valid, the division is
well defined and every table and buffer index read stays in bounds. -/
theorem computeVertexPointsB_preconditions (t : FarCatmarkSubdivisionTables) (i : ℤ)
    (vitLen bufLen : ℤ) :
    (vertexBVITReadIndices t i).length = 2 * (t.V_ITa (5 * i + 1)).toNat ∧
    (∀ (t2 : FarCatmarkSubdivisionTables) (buf : ℤ → Vertex) (dst : ℤ),
      t2.V_ITa (5 * i + 0) = t.V_ITa (5 * i + 0) →
      t2.V_ITa (5 * i + 1) = t.V_ITa (5 * i + 1) →
      t2.V_ITa (5 * i + 2) = t.V_ITa (5 * i + 2) →
      t2.V_IT = t.V_IT → t2.V_W i = t.V_W i →
      vertexBStep t2 buf i dst = vertexBStep t buf i dst) ∧
    (1 ≤ t.V_ITa (5 * i + 1) →
      ((t.V_ITa (5 * i + 1) : ℚ) * (t.V_ITa (5 * i + 1) : ℚ)) ≠ 0 ∧
      (1 / ((t.V_ITa (5 * i + 1) : ℚ) * (t.V_ITa (5 * i + 1) : ℚ))) *
        ((t.V_ITa (5 * i + 1) : ℚ) * (t.V_ITa (5 * i + 1) : ℚ)) = 1) ∧
    (1 ≤ t.V_ITa (5 * i + 1) → 0 ≤ t.V_ITa (5 * i + 0) →
      t.V_ITa (5 * i + 0) + 2 * t.V_ITa (5 * i + 1) ≤ vitLen →
      ∀ q ∈ vertexBVITReadIndices t i, 0 ≤ q ∧ q < vitLen) ∧
    ((∀ q ∈ vertexBVITReadIndices t i, 0 ≤ t.V_IT q ∧ t.V_IT q < bufLen) →
      0 ≤ t.V_ITa (5 * i + 2) → t.V_ITa (5 * i + 2) < bufLen →
      ∀ r ∈ vertexBSrcIndices t i, 0 ≤ r ∧ r < bufLen) := by
  refine ⟨?_, ?_, ?_, ?_, ?_⟩
  · simp only [vertexBVITReadIndices]
    exact pairReadList_length (t.V_ITa (5 * i + 0)) (t.V_ITa (5 * i + 1)).toNat
  · intro t2 buf dst h0 h1 h2 hIT hW
    simp only [vertexBStep, h0, h1, h2, hW,
      vertexBAccumJ_VIT_congr t t2 buf (t.V_ITa (5 * i + 0))
        (t.V_W i * (1 / ((t.V_ITa (5 * i + 1) : ℚ) * (t.V_ITa (5 * i + 1) : ℚ)))) hIT]
  · intro hn
    have hnz : (t.V_ITa (5 * i + 1) : ℚ) ≠ 0 :=
      Int.cast_ne_zero.mpr (by omega)
    exact ⟨mul_ne_zero hnz hnz, one_div_mul_cancel (mul_ne_zero hnz hnz)⟩
  · intro hn hh hlen q hq
    simp only [vertexBVITReadIndices, List.mem_flatMap, List.mem_range] at hq
    obtain ⟨j, hj, hqm⟩ := hq
    have hjn : (j : ℤ) < t.V_ITa (5 * i + 1) := by omega
    simp only [List.mem_cons, List.not_mem_nil, or_false] at hqm
    rcases hqm with rfl | rfl <;> constructor <;> omega
  · intro hidx hp0 hp1 r hr
    simp only [vertexBSrcIndices, List.mem_cons] at hr
    rcases hr with rfl | hr
    · exact ⟨hp0, hp1⟩
    · obtain ⟨q, hq, rfl⟩ := List.mem_map.mp hr
      exact hidx q hq

/-- Concrete tables for the kernel-B precondition witness: valence 1,
neighbor offset 0, parent 2, identity neighbor table. -/
def tC9 : FarCatmarkSubdivisionTables where
  F_ITa := fun _ => 0
  F_IT := fun _ => 0
  E_IT := fun _ => 0
  E_W := fun _ => 0
  V_ITa := fun q => if q = 1 then 1 else if q = 2 then 2 else 0
  V_IT := fun q => q
  V_W := fun _ => 1

theorem computeVertexPointsB_preconditions_witness :
    ((1 : ℤ) ≤ tC9.V_ITa (5 * 0 + 1) ∧ (0 : ℤ) ≤ tC9.V_ITa (5 * 0 + 0) ∧
      tC9.V_ITa (5 * 0 + 0) + 2 * tC9.V_ITa (5 * 0 + 1) ≤ 2 ∧
      (0 : ℤ) ≤ tC9.V_ITa (5 * 0 + 2) ∧ tC9.V_ITa (5 * 0 + 2) < 3) ∧
    (((tC9.V_ITa (5 * 0 + 1) : ℚ) * (tC9.V_ITa (5 * 0 + 1) : ℚ)) ≠ 0 ∧
      (1 / ((tC9.V_ITa (5 * 0 + 1) : ℚ) * (tC9.V_ITa (5 * 0 + 1) : ℚ))) *
        ((tC9.V_ITa (5 * 0 + 1) : ℚ) * (tC9.V_ITa (5 * 0 + 1) : ℚ)) = 1) ∧
    (∀ q ∈ vertexBVITReadIndices tC9 0, 0 ≤ q ∧ q < 2) ∧
    (∀ r ∈ vertexBSrcIndices tC9 0, 0 ≤ r ∧ r < 3) := by
  have hmain := computeVertexPointsB_preconditions tC9 0 2 3
  exact ⟨⟨by decide, by decide, by decide, by decide, by decide⟩,
    hmain.2.2.1 (by decide),
    hmain.2.2.2.1 (by decide) (by decide) (by decide),
    hmain.2.2.2.2 (by decide) (by decide) (by decide)⟩

/-- Concrete boundary-edge tables for the table-load claim: `E_IT[2] = -1`. -/
def tC10a : FarCatmarkSubdivisionTables where
  F_ITa := fun _ => 0
  F_IT := fun _ => 0
  E_IT := fun q => if q = 2 then -1 else if q = 0 then 0 else if q = 1 then 1 else 0
  E_W := fun q => if q = 1 then 1 else 0
  V_ITa := fun _ => 0
  V_IT := fun _ => 0
  V_W := fun _ => 0

/-- Same tables as `tC10a` except that `E_IT[2]` is the valid index 0. -/
def tC10b : FarCatmarkSubdivisionTables where
  F_ITa := fun _ => 0
  F_IT := fun _ => 0
  E_IT := fun q => if q = 2 then 0 else if q = 0 then 0 else if q = 1 then 1 else 0
  E_W := fun q => if q = 1 then 1 else 0
  V_ITa := fun _ => 0
  V_IT := fun _ => 0
  V_W := fun _ => 0

/-- Same tables as `tC10b` except at the unread `E_IT` position 100. -/
def tC10c : FarCatmarkSubdivisionTables where
  F_ITa := fun _ => 0
  F_IT := fun _ => 0
  E_IT := fun q => if q = 100 then 7
    else if q = 2 then 0 else if q = 0 then 0 else if q = 1 then 1 else 0
  E_W := fun q => if q = 1 then 1 else 0
  V_ITa := fun _ => 0
  V_IT := fun _ => 0
  V_W := fun _ => 0

/-- Constant source buffer for the table-load claim. -/
def bufC10 : ℤ → Vertex := fun _ => ⟨1, 0⟩

/-- Buffer agreeing with `bufC10` at indices 0 and 1 only. -/
def buf2C10 : ℤ → Vertex := fun q => if q = 0 then ⟨1, 0⟩ else if q = 1 then ⟨1, 0⟩
  else ⟨9, 9⟩

/-- C10: `computeEdgePoints` loads all four `E_IT` entries of an edge-point
unconditionally — the boundary branch only skips fetching the source
vertices at `e2`/`e3` and the face weight — so the edge index table must
hold four entries per edge-point even for boundary edges; the kernel's
output genuinely depends on the `E_IT[4i+2]` entry even with a constant
buffer, while with `e2 = -1` it depends on no source vertex beyond the two
endpoints. -/
theorem computeEdgePoints_table_loads (t t2 : FarCatmarkSubdivisionTables) (i d : ℤ)
    (buf buf2 : ℤ → Vertex) :
    (edgeEITReadIndices i).length = 4 ∧
    4 * i + 2 ∈ edgeEITReadIndices i ∧
    4 * i + 3 ∈ edgeEITReadIndices i ∧
    ((∀ q ∈ edgeEITReadIndices i, t2.E_IT q = t.E_IT q) → t2.E_W = t.E_W →
      edgePointStep t2 buf i d = edgePointStep t buf i d) ∧
    (t.E_IT (4 * i + 2) = -1 →
      edgeSrcIndices t i = [t.E_IT (4 * i), t.E_IT (4 * i + 1)] ∧
      (buf (t.E_IT (4 * i)) = buf2 (t.E_IT (4 * i)) →
        buf (t.E_IT (4 * i + 1)) = buf2 (t.E_IT (4 * i + 1)) →
        edgePointStep t buf i d d = edgePointStep t buf2 i d d)) ∧
    (edgePointStep tC10a bufC10 0 1 1).pos ≠ (edgePointStep tC10b bufC10 0 1 1).pos := by
  refine ⟨rfl, by simp [edgeEITReadIndices], by simp [edgeEITReadIndices], ?_, ?_, ?_⟩
  · intro hq hw
    have h0 := hq (4 * i + 0) (by simp [edgeEITReadIndices])
    have h1 := hq (4 * i + 1) (by simp [edgeEITReadIndices])
    have h2 := hq (4 * i + 2) (by simp [edgeEITReadIndices])
    have h3 := hq (4 * i + 3) (by simp [edgeEITReadIndices])
    simp only [edgePointStep, h0, h1, h2, h3, hw]
  · intro h2
    constructor
    · simp [edgeSrcIndices, h2]
    · intro hb0 hb1
      rw [edgePointStep_self, edgePointStep_self, hb0, hb1]
      have hcond : ¬(t.E_IT (4 * i + 2) ≠ -1) := fun hx => hx h2
      rw [if_neg hcond, if_neg hcond]
  · norm_num [edgePointStep, Function.update, tC10a, tC10b, bufC10,
      Vertex.AddWithWeight, Vertex.AddVaryingWithWeight, Vertex.Clear]

theorem computeEdgePoints_table_loads_witness :
    ((∀ q ∈ edgeEITReadIndices 0, tC10c.E_IT q = tC10b.E_IT q) ∧
      tC10a.E_IT (4 * 0 + 2) = -1) ∧
    edgePointStep tC10c bufC10 0 1 = edgePointStep tC10b bufC10 0 1 ∧
    edgeSrcIndices tC10a 0 = [tC10a.E_IT (4 * 0), tC10a.E_IT (4 * 0 + 1)] ∧
    edgePointStep tC10a bufC10 0 1 1 = edgePointStep tC10a buf2C10 0 1 1 := by
  have hA := computeEdgePoints_table_loads tC10a tC10c 0 1 bufC10 buf2C10
  have hB := computeEdgePoints_table_loads tC10b tC10c 0 1 bufC10 buf2C10
  exact ⟨⟨by decide, by decide⟩,
    hB.2.2.2.1 (by decide) rfl,
    (hA.2.2.2.2.1 (by decide)).1,
    (hA.2.2.2.2.1 (by decide)).2 rfl rfl⟩

theorem getNumTables_and_context_slots_witness :
    ((mkOsdGLSLTransformFeedbackComputeContext 7).f_IT = true ↔ 5 < (7 : ℤ)) ∧
    ((mkOsdGLSLTransformFeedbackComputeContext 5).f_IT = true ↔ 5 < (5 : ℤ)) :=
  ⟨(getNumTables_and_context_slots.2.2.1 7).2.2.2.2.2.1,
    (getNumTables_and_context_slots.2.2.1 5).2.2.2.2.2.1⟩
